import Mathlib

/-!
# Mining coordinator (`WalletGui::miner`, src/Miner.cpp) and RPC status helper

A shallow embedding of the mining coordinator of the wallet: the template
store (`set_block_template`, `request_block_template`), the life cycle
(`start`, `stop`, `pause`, `resume`), the periodic work (`on_idle`,
`merge_hr`, `on_block_chain_update`), the speed query and the loop of
`worker_thread`; and of `interpret_rpc_response` of `CryptoNoteWrapper.cpp`
with the two results of the RPC node that depend on it.

Conventions of the embedding.

* The object `miner` becomes the record `miner`; a member function becomes a
  function from the state before the call to the result and the state after it.
* `uint32_t` / `uint64_t` values are natural numbers, reduced modulo `2^32` /
  `2^64` wherever the code can overflow.
* `Miner.h` is not among the sources.  The widths of the fields are taken from
  the places of `Miner.cpp` that fix them: `m_template_no` is compared with
  and copied into the `uint32_t local_template_ver`, `m_starter_nonce` receives
  `Random::randomValue<uint32_t>()`, `m_threads_total` receives a
  `static_cast<uint32_t>`.  `m_pausers_count` is compared with `< 0`, so it is
  signed; no line of `Miner.cpp` fixes its width and it is an `Int` here.
* Functions of other libraries that the coordinator calls are parameters:
  pure ones are fields of `Env`, the core and wallet collaborators (which may
  answer differently at every call) are fields of `Handler`, one value per
  call, and a random draw is an argument of the call.
* A mutex-protected region is one atomic step.  Log output is not part of the
  coordinator state; `pause` and `resume` return the lines they log.
* `m_hashes`, `m_current_hash_rate` and `m_last_hr_merge_time` are `uint64_t`
  (`get_speed` and `millisecondsSinceEpoch` return `uint64_t`).  A clock reading
  is an argument of the call that reads the clock; so is the answer of an
  interval timer of `on_idle`, whose class is not among the sources.  A call
  that would divide by zero, or whose loop does not terminate, has no result
  (`none`).
* One pass of the worker loop returns, besides the new state, the events a
  collaborator can see: sleeps, long-hash computations, found blocks, saves of
  the configuration.
-/

namespace WalletGui

/-! ## Data model -/

/-- The number of values of a `uint32_t`. -/
def UINT32_MOD : Nat := 4294967296

/-- A 32-byte hash (`Crypto::Hash`), as its bytes. -/
abbrev Hash := List Nat

/-- A byte string (`CryptoNote::BinaryArray`). -/
abbrev BinaryArray := List Nat

/-- The public address mined to (`CryptoNote::AccountPublicAddress`). -/
structure AccountPublicAddress where
  spendPublicKey : List Nat
  viewPublicKey : List Nat
deriving DecidableEq, Repr

/-- The block structure (`CryptoNote::Block`): the fields `Miner.cpp` reads or writes
(`majorVersion`, `nonce`, `parentBlock.baseTransaction.extra`, `baseTransaction`) and
the remaining content as one byte string. -/
structure Block where
  majorVersion : Nat
  nonce : Nat
  parentBlock_baseTransaction_extra : BinaryArray
  baseTransaction : BinaryArray
  rest : BinaryArray
deriving DecidableEq, Repr

/-- The value-initialised block: `boost::value_initialized<Block>()`. -/
def Block.value_initialized : Block :=
  { majorVersion := 0, nonce := 0, parentBlock_baseTransaction_extra := [],
    baseTransaction := [], rest := [] }

/-- The merge-mining tag: `CryptoNote::TransactionExtraMergeMiningTag`. -/
structure TransactionExtraMergeMiningTag where
  depth : Nat
  merkleRoot : Hash
deriving DecidableEq, Repr

/-- Modelled from the spec: the constant `BLOCK_MAJOR_VERSION_2` of `CryptoNoteConfig.h`
(not among the sources); set_block_template builds the merge-mining tag for major
versions 2 and 3. -/
def BLOCK_MAJOR_VERSION_2 : Nat := 2

/-- Modelled from the spec: the constant `BLOCK_MAJOR_VERSION_3` of `CryptoNoteConfig.h`
(not among the sources). -/
def BLOCK_MAJOR_VERSION_3 : Nat := 3

/-- Severity of a log line. -/
inductive Level where
  | TRACE
  | INFO
  | ERROR
deriving DecidableEq, Repr

/-- One line written to the logger. -/
structure LogLine where
  level : Level
  text : String
deriving DecidableEq, Repr

/-- The pure library functions and constants the coordinator uses. -/
structure Env where
  /-- The function `CryptoNote::get_aux_block_header_hash(b, res)`: `none` when it returns false. -/
  get_aux_block_header_hash : Block → Option Hash
  /-- The function `CryptoNote::appendMergeMiningTagToExtra(extra, tag)`: the returned flag and
  the content of `extra` after the call. -/
  appendMergeMiningTagToExtra : BinaryArray → TransactionExtraMergeMiningTag → Bool × BinaryArray
  /-- The method `Currency::parseAccountAddressString(str, adr)`: the returned flag and the
  content of `adr` after the call (the second argument is its content before). -/
  parseAccountAddressString : String → AccountPublicAddress → Bool × AccountPublicAddress
  /-- The function `get_block_longhash(ctx, b, h)`: `none` when it returns false. -/
  get_block_longhash : Block → Option Hash
  /-- The function `check_hash(h, difficulty)`. -/
  check_hash : Hash → Nat → Bool
  /-- The constant `CRYPTONOTE_MINED_MONEY_UNLOCK_WINDOW_V1`. -/
  unlock_window : Nat

/-- What `prepareBlockTemplate` writes through its reference parameters when it succeeds. -/
structure PreparedTemplate where
  bl : Block
  fee : Nat
  di : Nat
  height : Nat
  median_size : Nat
  txs_size : Nat
  already_generated_coins : Nat
deriving DecidableEq, Repr

/-- What `getStake` leaves in its reference parameters when it succeeds. -/
structure StakeReply where
  height : Nat
  di : Nat
  median_size : Nat
  already_generated_coins : Nat
  stake : Nat
  reward : Nat
deriving DecidableEq, Repr

/-- The behaviour of the core (`m_handler`) and of the wallet (`WalletAdapter::instance()`)
during one call of the coordinator. -/
structure Handler where
  /-- The call `m_handler.prepareBlockTemplate(bl, fee, adr, di, height, extra_nonce, ...)`, given the
  address and the extra nonce: `none` when it returns false. -/
  prepareBlockTemplate : AccountPublicAddress → BinaryArray → Option PreparedTemplate
  /-- The call `m_handler.getStake(majorVersion, fee, height, di, median_size, already_generated_coins,
  txs_size, stake, reward)`: `none` when it returns false. -/
  getStake : Nat → Nat → Nat → Nat → Nat → Nat → Nat → Option StakeReply
  /-- The call `getStakeTransaction(address, stake, reward, mixin, unlock_time, extra, tx, key)`:
  the transaction written to `bl.baseTransaction`, `none` when it returns false. -/
  getStakeTransaction : String → Nat → Nat → Nat → Nat → String → BinaryArray → Option BinaryArray
  /-- The call `m_handler.handle_block_found(b)`. -/
  handle_block_found : Block → Bool

/-- The coordinator: the data members of class `miner`. The worker registry `m_threads`
holds, for every registered thread, the index `th_local_index` bound to it. -/
structure miner where
  m_stop : Bool
  m_template : Block
  m_template_no : Nat
  m_diffic : Nat
  m_pausers_count : Int
  m_threads_total : Nat
  m_starter_nonce : Nat
  m_last_hr_merge_time : Nat
  m_hashes : Nat
  m_do_mining : Bool
  m_current_hash_rate : Nat
  m_last_hash_rates : List Nat
  m_threads : List Nat
  m_mine_address : AccountPublicAddress
  m_mine_address_str : String
deriving DecidableEq, Repr

/-- The constructor `miner::miner`: the freshly constructed coordinator. -/
def miner.init : miner :=
  { m_stop := true,
    m_template := Block.value_initialized,
    m_template_no := 0,
    m_diffic := 0,
    m_pausers_count := 0,
    m_threads_total := 0,
    m_starter_nonce := 0,
    m_last_hr_merge_time := 0,
    m_hashes := 0,
    m_do_mining := false,
    m_current_hash_rate := 0,
    m_last_hash_rates := [],
    m_threads := [],
    m_mine_address := { spendPublicKey := [], viewPublicKey := [] },
    m_mine_address_str := "" }

/-! ## Template store -/

/-- The tail of `set_block_template` (lines 98-101): publish the difficulty, advance the
version and draw the starter nonce; `rnd` is the value of `Random::randomValue<uint32_t>()`. -/
def miner.publish (s : miner) (di : Nat) (rnd : Nat) : Bool × miner :=
  (true, { s with m_diffic := di,
                  m_template_no := (s.m_template_no + 1) % UINT32_MOD,
                  m_starter_nonce := rnd % UINT32_MOD })

/-- The method `miner::set_block_template(bl, di)`; the whole body runs under `m_template_lock`. -/
def miner.set_block_template (env : Env) (rnd : Nat) (s : miner) (bl : Block) (di : Nat) :
    Bool × miner :=
  let s1 := { s with m_template := bl }
  if s1.m_template.majorVersion = BLOCK_MAJOR_VERSION_2
      ∨ s1.m_template.majorVersion = BLOCK_MAJOR_VERSION_3 then
    match env.get_aux_block_header_hash s1.m_template with
    | none => (false, s1)
    | some merkleRoot =>
      let mm_tag : TransactionExtraMergeMiningTag := { depth := 0, merkleRoot := merkleRoot }
      let r := env.appendMergeMiningTagToExtra [] mm_tag
      let s2 := { s1 with m_template :=
                    { s1.m_template with parentBlock_baseTransaction_extra := r.2 } }
      if r.1 = false then (false, s2) else s2.publish di rnd
  else s1.publish di rnd

/-- The method `miner::request_block_template(wait_wallet_refresh, local_dispatcher)`; `h` is the
behaviour of the core and the wallet during the call. The result of `set_block_template`
is not looked at (line 151). -/
def miner.request_block_template (env : Env) (h : Handler) (rnd : Nat) (s : miner)
    (_wait_wallet_refresh _local_dispatcher : Bool) : Bool × miner :=
  let extra_nonce : BinaryArray := []
  match h.prepareBlockTemplate s.m_mine_address extra_nonce with
  | none => (false, s)
  | some p =>
    match h.getStake p.bl.majorVersion p.fee p.height p.di p.median_size
        p.already_generated_coins p.txs_size with
    | none => (false, s)
    | some st =>
      match h.getStakeTransaction s.m_mine_address_str st.stake st.reward 0
          (st.height + env.unlock_window) "" p.bl.baseTransaction with
      | none => (false, s)
      | some tx =>
        let bl := { p.bl with baseTransaction := tx }
        (true, (s.set_block_template env rnd bl st.di).2)

/-! ## Life cycle -/

/-- The method `miner::is_mining`. -/
def miner.is_mining (s : miner) : Bool := !s.m_stop

/-- The method `miner::get_speed`. -/
def miner.get_speed (s : miner) : Nat :=
  if s.is_mining then s.m_current_hash_rate else 0

/-- The spawn loop of `start` (lines 234-236): `for (uint32_t i = 0; i != threads_count; i++)`
pushes a thread bound to index `i`. The counter wraps at `2^32` while `threads_count` is a
`size_t`, so the loop need not terminate: `none` when the fuel runs out. -/
def spawn_loop : Nat → Nat → Nat → List Nat → Option (List Nat)
  | 0, _, _, _ => none
  | fuel + 1, i, threads_count, m_threads =>
    if i ≠ threads_count then
      spawn_loop fuel ((i + 1) % UINT32_MOD) threads_count (m_threads ++ [i])
    else some m_threads

/-- Lines 220-223 of `start`: remember the address string, store the thread total and draw
a starter nonce (`rnd_start`). -/
def miner.start_configure (s : miner) (address : String) (threads_count rnd_start : Nat) :
    miner :=
  { s with m_mine_address_str := address,
           m_threads_total := threads_count % UINT32_MOD,
           m_starter_nonce := rnd_start % UINT32_MOD }

/-- Lines 216-226 of `start` when the address parses: the template request made by `start`,
on the state in which the parsed address and the configuration are stored. -/
def miner.start_request (env : Env) (h : Handler) (rnd_start rnd_tpl : Nat) (s : miner)
    (address : String) (threads_count : Nat) : Bool × miner :=
  let r := env.parseAccountAddressString address s.m_mine_address
  let s1 := { s with m_mine_address := r.2 }
  (s1.start_configure address threads_count rnd_start).request_block_template env h rnd_tpl
    false true

/-- The method `miner::start(address, threads_count)`; `rnd_start` is the random draw of line 223,
`rnd_tpl` the one inside `set_block_template`. The spawn loop runs with fuel
`threads_count + 1`, which suffices whenever the loop terminates; `none` stands for a
call that does not return. -/
def miner.start (env : Env) (h : Handler) (rnd_start rnd_tpl : Nat) (s : miner)
    (address : String) (threads_count : Nat) : Option (Bool × miner) :=
  if s.is_mining then some (false, s)
  else if ¬ s.m_threads.isEmpty then some (false, s)
  else
    let r := env.parseAccountAddressString address s.m_mine_address
    if r.1 = false then some (false, { s with m_mine_address := r.2 })
    else
      let t := s.start_request env h rnd_start rnd_tpl address threads_count
      if t.1 = false then some (false, t.2)
      else
        let s3 := { t.2 with m_stop := false, m_pausers_count := 0 }
        (spawn_loop (threads_count + 1) 0 threads_count s3.m_threads).map
          fun ths => (true, { s3 with m_threads := ths })

/-- The method `miner::send_stop_signal`. -/
def miner.send_stop_signal (s : miner) : miner := { s with m_stop := true }

/-- The method `miner::stop`: signal, detach every thread and clear the registry. -/
def miner.stop (s : miner) : Bool × miner :=
  (true, { s.send_stop_signal with m_threads := [] })

/-- The method `miner::pause`, with the lines it logs. -/
def miner.pause (s : miner) : miner × List LogLine :=
  let s1 := { s with m_pausers_count := s.m_pausers_count + 1 }
  (s1, if s1.m_pausers_count = 1 ∧ s1.is_mining then [⟨Level.TRACE, "MINING PAUSED"⟩] else [])

/-- The method `miner::resume`, with the lines it logs. -/
def miner.resume (s : miner) : miner × List LogLine :=
  let s1 := { s with m_pausers_count := s.m_pausers_count - 1 }
  let misuse : Bool := decide (s1.m_pausers_count < 0)
  let s2 := if misuse then { s1 with m_pausers_count := 0 } else s1
  let log1 : List LogLine :=
    if misuse then [⟨Level.ERROR, "Unexpected miner::resume() called"⟩] else []
  let log2 : List LogLine :=
    if s2.m_pausers_count = 0 ∧ s2.is_mining then [⟨Level.TRACE, "MINING RESUMED"⟩] else []
  (s2, log1 ++ log2)

/-! ## Worker -/

/-- The first nonce of a worker (lines 304 and 325): `nonce = m_starter_nonce + th_local_index`
in `uint32_t`. -/
def nonce_start (m_starter_nonce th_local_index : Nat) : Nat :=
  (m_starter_nonce + th_local_index) % UINT32_MOD

/-- The advance after an attempt (line 362): `nonce += m_threads_total` in `uint32_t`. -/
def nonce_advance (nonce m_threads_total : Nat) : Nat :=
  (nonce + m_threads_total) % UINT32_MOD

/-- The nonce of the `k`-th attempt (`k = 0, 1, ...`) of the worker with index `th_local_index`
for one template version: the start value advanced `k` times. -/
def probed_nonce (m_starter_nonce th_local_index m_threads_total : Nat) : Nat → Nat
  | 0 => nonce_start m_starter_nonce th_local_index
  | k + 1 =>
    nonce_advance (probed_nonce m_starter_nonce th_local_index m_threads_total k) m_threads_total

/-- The value `start` stores in `m_threads_total` for a worker count (line 222). -/
def threads_total_of (threads_count : Nat) : Nat := threads_count % UINT32_MOD

/-- The locals of `miner::worker_thread`. -/
structure worker where
  th_local_index : Nat
  nonce : Nat
  local_diff : Nat
  local_template_ver : Nat
  b : Block
deriving DecidableEq, Repr

/-- The locals of a worker when it enters its loop (lines 304-308). -/
def worker.init (m : miner) (th_local_index : Nat) : worker :=
  { th_local_index := th_local_index,
    nonce := nonce_start m.m_starter_nonce th_local_index,
    local_diff := 0,
    local_template_ver := 0,
    b := Block.value_initialized }

/-- Lines 319-322: under `m_template_lock`, copy the template and the difficulty. -/
def worker.sync_copy (m : miner) (w : worker) : worker :=
  { w with b := m.m_template, local_diff := m.m_diffic }

/-- Line 324, after the lock is released: record the version. -/
def worker.sync_version (m : miner) (w : worker) : worker :=
  { w with local_template_ver := m.m_template_no }

/-- Line 325: reset the nonce. -/
def worker.sync_nonce (m : miner) (w : worker) : worker :=
  { w with nonce := nonce_start m.m_starter_nonce w.th_local_index }

/-- Lines 318-326 executed without interference. -/
def worker.resync (m : miner) (w : worker) : worker :=
  if w.local_template_ver ≠ m.m_template_no then
    (w.sync_copy m |>.sync_version m |>.sync_nonce m)
  else w

/-- Where a worker stands inside lines 318-326. -/
inductive resync_pc where
  | at_version_check
  | after_unlock
  | after_version_read
deriving DecidableEq, Repr

/-- The template store together with one worker that is inside its loop. -/
structure system where
  m : miner
  w : worker
  pc : resync_pc
deriving DecidableEq, Repr

/-- One atomic step of the system: a complete `set_block_template` call (it holds
`m_template_lock` throughout), or the next step of the worker. -/
inductive action where
  | set_block_template (rnd : Nat) (bl : Block) (di : Nat)
  | worker_step
deriving DecidableEq, Repr

/-- The effect of one atomic step. The worker steps are those of lines 318-326: the version
check with the locked copy, the read of the version, the reset of the nonce. When the
versions agree the worker leaves these lines; the rest of its iteration writes neither
the recorded version nor the template store. -/
def system.step (env : Env) (sys : system) : action → system
  | action.set_block_template rnd bl di =>
    { sys with m := (sys.m.set_block_template env rnd bl di).2 }
  | action.worker_step =>
    match sys.pc with
    | resync_pc.at_version_check =>
      if sys.w.local_template_ver ≠ sys.m.m_template_no then
        { sys with w := sys.w.sync_copy sys.m, pc := resync_pc.after_unlock }
      else sys
    | resync_pc.after_unlock =>
      { sys with w := sys.w.sync_version sys.m, pc := resync_pc.after_version_read }
    | resync_pc.after_version_read =>
      { sys with w := sys.w.sync_nonce sys.m, pc := resync_pc.at_version_check }

/-- An interleaving: the steps taken one after the other. -/
def system.run (env : Env) (sys : system) (steps : List action) : system :=
  steps.foldl (system.step env) sys

/-- A coordinator with one worker of index `idx` that has entered its loop and stands at
the version check of line 318. -/
def system.enter (m : miner) (idx : Nat) : system :=
  { m := m, w := worker.init m idx, pc := resync_pc.at_version_check }

/-! ## Hash rate and periodic work -/

/-- The number of values of a `uint64_t`. -/
def UINT64_MOD : Nat := 18446744073709551616

/-- The divisor of line 180: `millisecondsSinceEpoch() - m_last_hr_merge_time + 1` in `uint64_t`;
`now` is the clock reading. -/
def merge_hr_divisor (now m_last_hr_merge_time : Nat) : Nat :=
  ((now % UINT64_MOD + (UINT64_MOD - m_last_hr_merge_time % UINT64_MOD)) % UINT64_MOD + 1)
    % UINT64_MOD

/-- The rate of line 180: `m_hashes * 1000 / divisor` in `uint64_t`. -/
def merge_hr_rate (m_hashes divisor : Nat) : Nat :=
  (m_hashes * 1000 % UINT64_MOD) / divisor

/-- Lines 182-184: `push_back` of the rate, then `pop_front` when the size exceeds 19. -/
def window_push (m_last_hash_rates : List Nat) (rate : Nat) : List Nat :=
  let pushed := m_last_hash_rates ++ [rate]
  if pushed.length > 19 then pushed.tail else pushed

/-- Whether a `merge_hr` call takes a sample: the condition of line 179. -/
def miner.takes_sample (s : miner) : Bool :=
  decide (s.m_last_hr_merge_time ≠ 0) && s.is_mining

/-- The method `miner::merge_hr`; `now1` is the clock reading of line 180 and `now2` the one of line
191. The sum `total_hr` of line 186 is not used by the code. `none` stands for the
division by zero of line 180. -/
def miner.merge_hr (s : miner) (now1 now2 : Nat) : Option miner :=
  if s.takes_sample then
    let divisor := merge_hr_divisor now1 s.m_last_hr_merge_time
    if divisor = 0 then none
    else
      let rate := merge_hr_rate s.m_hashes divisor
      some { s with m_current_hash_rate := rate,
                    m_last_hash_rates := window_push s.m_last_hash_rates rate,
                    m_last_hr_merge_time := now2 % UINT64_MOD,
                    m_hashes := 0 }
  else
    some { s with m_last_hr_merge_time := now2 % UINT64_MOD, m_hashes := 0 }

/-- The callback of `m_update_block_template_interval` in `on_idle` (lines 157-161), run when
`fire_template` says that the interval has elapsed. The result of
`request_block_template` is not looked at. -/
def miner.on_idle_refresh (env : Env) (h : Handler) (rnd : Nat) (fire_template : Bool)
    (s : miner) : miner :=
  if fire_template then
    if s.is_mining then (s.request_block_template env h rnd false false).2 else s
  else s

/-- The method `miner::on_idle`. The class of the two interval timers is not among the sources:
whether the interval of `m_update_block_template_interval` and of
`m_update_merge_hr_interval` has elapsed is given by `fire_template` and
`fire_merge_hr`. -/
def miner.on_idle (env : Env) (h : Handler) (rnd : Nat) (fire_template fire_merge_hr : Bool)
    (now1 now2 : Nat) (s : miner) : Option (Bool × miner) :=
  let s1 := s.on_idle_refresh env h rnd fire_template
  if fire_merge_hr then (s1.merge_hr now1 now2).map fun s2 => (true, s2)
  else some (true, s1)

/-- The method `miner::on_block_chain_update`. -/
def miner.on_block_chain_update (env : Env) (h : Handler) (rnd : Nat) (s : miner) :
    Bool × miner :=
  if ¬ s.is_mining then (true, s) else s.request_block_template env h rnd true true

/-! ## Worker loop -/

/-- What a worker does in one pass of its loop that is visible outside the coordinator
state: a sleep, a long-hash computation on a block with its result, a found block
handed to `handle_block_found` with its result, a save of the miner configuration. -/
inductive worker_event where
  | sleep (milliseconds : Nat)
  | longhash (b : Block) (ok : Bool)
  | block_found (b : Block) (accepted : Bool)
  | config_saved
deriving DecidableEq, Repr

/-- The result of one pass of the worker loop. -/
structure iteration where
  m : miner
  w : worker
  events : List worker_event
deriving DecidableEq, Repr

/-- Lines 342-360: when the stop flag is clear and the hash meets the cached difficulty, hand
the block to `handle_block_found` and save the configuration when it is accepted.
`hash` is `none` when line 337 computed no hash (then the stop flag is set). -/
def worker.report (env : Env) (h : Handler) (m : miner) (w : worker) (hash : Option Hash) :
    List worker_event :=
  match hash with
  | none => []
  | some hh =>
    if ¬ m.m_stop ∧ env.check_hash hh w.local_diff then
      if h.handle_block_found w.b then
        [worker_event.block_found w.b true, worker_event.config_saved]
      else [worker_event.block_found w.b false]
    else []

/-- The body of the loop of `miner::worker_thread` (lines 312-363), executed without
interference, on a pass whose loop condition held. -/
def worker.iteration (env : Env) (h : Handler) (m : miner) (w : worker) : iteration :=
  if m.m_pausers_count ≠ 0 then
    { m := m, w := w, events := [worker_event.sleep 100] }
  else
    let w1 := w.resync m
    if w1.local_template_ver = 0 then
      { m := m, w := w1, events := [worker_event.sleep 1000] }
    else
      let w2 := { w1 with b := { w1.b with nonce := w1.nonce } }
      let hashed : Option (Option Hash) :=
        if ¬ m.m_stop then some (env.get_block_longhash w2.b) else none
      let m1 := if hashed = some none then { m with m_stop := true } else m
      let ev1 : List worker_event :=
        match hashed with
        | none => []
        | some r => [worker_event.longhash w2.b r.isSome]
      let ev2 := w2.report env h m1 (hashed.bind id)
      { m := { m1 with m_hashes := (m1.m_hashes + 1) % UINT64_MOD },
        w := { w2 with nonce := nonce_advance w2.nonce m.m_threads_total },
        events := ev1 ++ ev2 }

/-- Whether the pass of the loop failed to compute the long hash. -/
def iteration.hash_failed (r : iteration) : Bool :=
  r.events.any fun e =>
    match e with
    | worker_event.longhash _ ok => !ok
    | _ => false

/-- The loop condition of `miner::worker_thread` (line 310): `while(!m_stop)`. -/
def miner.loop_continues (m : miner) : Bool := !m.m_stop

/-- The loop of `miner::worker_thread` at its loop-condition check: the next pass when the
condition holds, `none` when the loop exits (line 365). -/
def worker.thread_step (env : Env) (h : Handler) (m : miner) (w : worker) :
    Option WalletGui.iteration :=
  if m.loop_continues then some (w.iteration env h m) else none

/-- The results of consecutive passes of the loop of a worker, pass by pass; every pass
comes with the coordinator state the worker meets in it and the behaviour of the core
during it, and starts from the locals the pass before left. -/
def worker.pass_results (env : Env) :
    worker → List (Handler × miner) → List WalletGui.iteration
  | _, [] => []
  | w, p :: rest =>
    (w.iteration env p.1 p.2) :: worker.pass_results env (w.iteration env p.1 p.2).w rest

/-- The nonce of the block hashed in a pass, when the pass hashed. -/
def iteration.hashed_nonce (r : WalletGui.iteration) : Option Nat :=
  match r.events with
  | worker_event.longhash b _ :: _ => some b.nonce
  | _ => none

/-! ## RPC node (`CryptoNoteWrapper.cpp`) -/

/-- The function `interpret_rpc_response(ok, status)` (lines 94-106). The two status constants
`CORE_RPC_STATUS_OK` and `CORE_RPC_STATUS_BUSY` are defined outside the sources and
are parameters. -/
def interpret_rpc_response (CORE_RPC_STATUS_OK CORE_RPC_STATUS_BUSY : String) (ok : Bool)
    (status : String) : String :=
  if ok then
    if status = CORE_RPC_STATUS_BUSY then "daemon is busy. Please try later"
    else if status ≠ CORE_RPC_STATUS_OK then status
    else ""
  else "possible lost connection to daemon"

/-- The answer of the daemon to `prepareblocktemplate` as far as the result of
`RpcNode::prepareBlockTemplate` depends on it: the status and whether the template blob
parses. -/
structure prepare_response where
  status : String
  blob_parses : Bool
deriving DecidableEq, Repr

/-- The result of `RpcNode::prepareBlockTemplate` (lines 232-267); `rsp` is `none` when the
request throws. -/
def RpcNode.prepareBlockTemplate (CORE_RPC_STATUS_OK CORE_RPC_STATUS_BUSY : String)
    (rsp : Option prepare_response) : Bool :=
  match rsp with
  | none => false
  | some r =>
    let err := interpret_rpc_response CORE_RPC_STATUS_OK CORE_RPC_STATUS_BUSY true r.status
    if err = "" then
      if ¬ r.blob_parses then false else true
    else false

/-- The result of `RpcNode::handleBlockFound` (lines 269-294); `status` is the status of the
answer to `submitblock`, `none` when the request throws. -/
def RpcNode.handleBlockFound (CORE_RPC_STATUS_OK CORE_RPC_STATUS_BUSY : String)
    (status : Option String) : Bool :=
  match status with
  | none => false
  | some st =>
    let err := interpret_rpc_response CORE_RPC_STATUS_OK CORE_RPC_STATUS_BUSY true st
    if err = "" then true else false

/-! ## Sequences of calls -/

/-- The arguments of one `set_block_template` call, with the random draw made inside it. -/
structure template_call where
  rnd : Nat
  bl : Block
  di : Nat
deriving DecidableEq, Repr

/-- One `set_block_template` call applied to the state. -/
def miner.apply_template_call (env : Env) (s : miner) (c : template_call) : Bool × miner :=
  s.set_block_template env c.rnd c.bl c.di

/-- The state after a sequence of `set_block_template` calls. -/
def miner.run_template_calls (env : Env) (s : miner) (calls : List template_call) : miner :=
  calls.foldl (fun st c => (st.apply_template_call env c).2) s

/-- The number of calls of the sequence that return true. -/
def miner.template_successes (env : Env) (s : miner) : List template_call → Nat
  | [] => 0
  | c :: cs =>
    (if (s.apply_template_call env c).1 then 1 else 0)
      + miner.template_successes env (s.apply_template_call env c).2 cs

/-- A call of `pause` or `resume`. -/
inductive pause_call where
  | pause
  | resume
deriving DecidableEq, Repr

/-- One `pause` or `resume` call applied to the state. -/
def miner.apply_pause_call (s : miner) : pause_call → miner
  | pause_call.pause => s.pause.1
  | pause_call.resume => s.resume.1

/-- The state after a sequence of `pause` and `resume` calls. -/
def miner.run_pause_calls (s : miner) (calls : List pause_call) : miner :=
  calls.foldl miner.apply_pause_call s

/-- The number of `pause` calls of a sequence. -/
def pause_call.pauses (calls : List pause_call) : Nat := calls.count pause_call.pause

/-- The number of `resume` calls of a sequence. -/
def pause_call.resumes (calls : List pause_call) : Nat := calls.count pause_call.resume

/-- No part of the sequence taken from its beginning has more `resume` than `pause` calls. -/
def pause_call.balanced (calls : List pause_call) : Prop :=
  ∀ n : Nat, pause_call.resumes (calls.take n) ≤ pause_call.pauses (calls.take n)

/-- A call on the control surface of the coordinator; a `start` call carries the behaviour
of the collaborators during the call and its random draws. -/
inductive control_call where
  | start (h : Handler) (rnd_start rnd_tpl : Nat) (address : String) (threads_count : Nat)
  | stop
  | pause
  | resume

/-- Whether the call is a `pause`. -/
def control_call.is_pause : control_call → Bool
  | control_call.pause => true
  | _ => false

/-- Whether the call is a `resume`. -/
def control_call.is_resume : control_call → Bool
  | control_call.resume => true
  | _ => false

/-- The number of `pause` calls of a sequence. -/
def control_call.pauses (calls : List control_call) : Nat :=
  calls.countP control_call.is_pause

/-- The number of `resume` calls of a sequence. -/
def control_call.resumes (calls : List control_call) : Nat :=
  calls.countP control_call.is_resume

/-- No part of the sequence taken from its beginning has more `resume` than `pause` calls. -/
def control_call.balanced (calls : List control_call) : Prop :=
  ∀ n : Nat, control_call.resumes (calls.take n) ≤ control_call.pauses (calls.take n)

/-- One control call applied to the state; `none` when a `start` does not return. -/
def miner.apply_control_call (env : Env) (s : miner) : control_call → Option miner
  | control_call.start h rnd_start rnd_tpl address threads_count =>
    (s.start env h rnd_start rnd_tpl address threads_count).map Prod.snd
  | control_call.stop => some s.stop.2
  | control_call.pause => some s.pause.1
  | control_call.resume => some s.resume.1

/-- The state after a sequence of control calls. -/
def miner.run_control_calls (env : Env) : miner → List control_call → Option miner
  | s, [] => some s
  | s, c :: cs =>
    match s.apply_control_call env c with
    | none => none
    | some s1 => miner.run_control_calls env s1 cs

/-- Whether the call is a `start` that returns true in state `s`. -/
def miner.start_succeeds (env : Env) (s : miner) : control_call → Bool
  | control_call.start h rnd_start rnd_tpl address threads_count =>
    match s.start env h rnd_start rnd_tpl address threads_count with
    | some (true, _) => true
    | _ => false
  | _ => false

/-- No `start` call of the sequence succeeds while the pause counter is non-zero. -/
def miner.no_start_while_paused (env : Env) : miner → List control_call → Bool
  | _, [] => true
  | s, c :: cs =>
    (!(s.start_succeeds env c) || decide (s.m_pausers_count = 0)) &&
      match s.apply_control_call env c with
      | none => true
      | some s1 => miner.no_start_while_paused env s1 cs

/-- A step of the running system: a call on the coordinator or one pass of the loop of a
worker whose locals are `w`. Every step carries the behaviour of the collaborators
and the clock readings and random draws it uses. -/
inductive running_step where
  | pause
  | resume
  | on_idle (h : Handler) (rnd : Nat) (fire_template fire_merge_hr : Bool) (now1 now2 : Nat)
  | merge_hr (now1 now2 : Nat)
  | request_block_template (h : Handler) (rnd : Nat) (wait_wallet_refresh local_dispatcher : Bool)
  | on_block_chain_update (h : Handler) (rnd : Nat)
  | set_block_template (rnd : Nat) (bl : Block) (di : Nat)
  | worker_iteration (h : Handler) (w : worker)
  | start (h : Handler) (rnd_start rnd_tpl : Nat) (address : String) (threads_count : Nat)
  | stop
  | send_stop_signal

/-- One step applied to the coordinator; `none` when the step does not return. A worker
whose loop condition `!m_stop` fails makes no pass. -/
def miner.apply_step (env : Env) (s : miner) : running_step → Option miner
  | running_step.pause => some s.pause.1
  | running_step.resume => some s.resume.1
  | running_step.on_idle h rnd fire_template fire_merge_hr now1 now2 =>
    (s.on_idle env h rnd fire_template fire_merge_hr now1 now2).map Prod.snd
  | running_step.merge_hr now1 now2 => s.merge_hr now1 now2
  | running_step.request_block_template h rnd wait_wallet_refresh local_dispatcher =>
    some (s.request_block_template env h rnd wait_wallet_refresh local_dispatcher).2
  | running_step.on_block_chain_update h rnd => some (s.on_block_chain_update env h rnd).2
  | running_step.set_block_template rnd bl di => some (s.set_block_template env rnd bl di).2
  | running_step.worker_iteration h w =>
    if s.m_stop then some s else some (w.iteration env h s).m
  | running_step.start h rnd_start rnd_tpl address threads_count =>
    (s.start env h rnd_start rnd_tpl address threads_count).map Prod.snd
  | running_step.stop => some s.stop.2
  | running_step.send_stop_signal => some s.send_stop_signal

/-- The state after a sequence of steps. -/
def miner.run_steps (env : Env) : miner → List running_step → Option miner
  | s, [] => some s
  | s, st :: rest =>
    match s.apply_step env st with
    | none => none
    | some s1 => miner.run_steps env s1 rest

/-- The rate sampled by the step, when the step is a `merge_hr` call (made directly or by
`on_idle`) that takes a sample. -/
def miner.step_sample (env : Env) (s : miner) : running_step → Option Nat
  | running_step.merge_hr now1 now2 =>
    if s.takes_sample then (s.merge_hr now1 now2).map fun s1 => s1.m_current_hash_rate
    else none
  | running_step.on_idle h rnd fire_template fire_merge_hr now1 now2 =>
    if fire_merge_hr ∧ (s.on_idle_refresh env h rnd fire_template).takes_sample then
      ((s.on_idle_refresh env h rnd fire_template).merge_hr now1 now2).map
        fun s1 => s1.m_current_hash_rate
    else none
  | _ => none

/-- The rates sampled along a sequence of steps, oldest first. -/
def miner.samples (env : Env) : miner → List running_step → List Nat
  | _, [] => []
  | s, st :: rest =>
    match s.apply_step env st with
    | none => []
    | some s1 => (s.step_sample env st).toList ++ miner.samples env s1 rest

/-- Whether the step sets the stop flag: a `stop` or `send_stop_signal` call, or a pass of a
worker loop in which the long hash cannot be computed. -/
def miner.step_stops (env : Env) (s : miner) : running_step → Bool
  | running_step.stop => true
  | running_step.send_stop_signal => true
  | running_step.worker_iteration h w => (w.iteration env h s).hash_failed
  | _ => false

/-- No step of the sequence sets the stop flag. -/
def miner.no_stop (env : Env) : miner → List running_step → Bool
  | _, [] => true
  | s, st :: rest =>
    !(s.step_stops env st) &&
      match s.apply_step env st with
      | none => true
      | some s1 => miner.no_stop env s1 rest

/-- The last `n` entries of a list, oldest first. -/
def last_entries (n : Nat) (l : List Nat) : List Nat := l.drop (l.length - n)

/-- Whether the step is a call of `stop`. -/
def running_step.is_stop : running_step → Bool
  | running_step.stop => true
  | _ => false

/-! ## Concrete collaborators and inputs used to evaluate the code -/

/-- An environment in which the merge-mining tag cannot be built because
`get_aux_block_header_hash` fails; addresses starting with `D` parse. -/
def env_aux_fails : Env :=
  { get_aux_block_header_hash := fun _ => none,
    appendMergeMiningTagToExtra := fun extra _ => (true, extra),
    parseAccountAddressString := fun str adr =>
      if str.front = 'D' then (true, { spendPublicKey := [1], viewPublicKey := [2] })
      else (false, adr),
    get_block_longhash := fun _ => some [],
    check_hash := fun _ _ => false,
    unlock_window := 10 }

/-- An environment in which `get_aux_block_header_hash` succeeds and
`appendMergeMiningTagToExtra` fails. -/
def env_append_fails : Env :=
  { env_aux_fails with
    get_aux_block_header_hash := fun _ => some [7],
    appendMergeMiningTagToExtra := fun extra _ => (false, extra) }

/-- A template of major version 1. -/
def template_v1 : Block :=
  { majorVersion := 1, nonce := 0, parentBlock_baseTransaction_extra := [],
    baseTransaction := [10], rest := [11] }

/-- A template of major version 2. -/
def template_v2 : Block :=
  { majorVersion := 2, nonce := 0, parentBlock_baseTransaction_extra := [5],
    baseTransaction := [20], rest := [21] }

/-- A second template of major version 1. -/
def template_v1b : Block :=
  { majorVersion := 1, nonce := 0, parentBlock_baseTransaction_extra := [],
    baseTransaction := [30], rest := [31] }

/-- A core and wallet that deliver `template_v1` with difficulty 100 and a stake
transaction. -/
def handler_ok : Handler :=
  { prepareBlockTemplate := fun _ _ =>
      some { bl := template_v1, fee := 0, di := 100, height := 5, median_size := 0,
             txs_size := 0, already_generated_coins := 0 },
    getStake := fun _ _ height di median_size already_generated_coins _ =>
      some { height := height, di := di, median_size := median_size,
             already_generated_coins := already_generated_coins, stake := 1, reward := 2 },
    getStakeTransaction := fun _ _ _ _ _ _ _ => some [42],
    handle_block_found := fun _ => true }

/-- A core that cannot deliver a template. -/
def handler_no_template : Handler :=
  { handler_ok with prepareBlockTemplate := fun _ _ => none }

/-- The coordinator after `start("D1", 4)` on the fresh coordinator with `handler_ok` and
the random draws 1 and 2. -/
def miner.started_four : miner :=
  { m_stop := false,
    m_template := { template_v1 with baseTransaction := [42] },
    m_template_no := 1,
    m_diffic := 100,
    m_pausers_count := 0,
    m_threads_total := 4,
    m_starter_nonce := 2,
    m_last_hr_merge_time := 0,
    m_hashes := 0,
    m_do_mining := false,
    m_current_hash_rate := 0,
    m_last_hash_rates := [],
    m_threads := [0, 1, 2, 3],
    m_mine_address := { spendPublicKey := [1], viewPublicKey := [2] },
    m_mine_address_str := "D1" }

/-- An interleaving in which a second template is published between the locked copy of
the worker (lines 319-322) and its read of the version (line 324). -/
def race_publish_between_copy_and_version : List action :=
  [action.worker_step,
   action.set_block_template 9 template_v1b 300,
   action.worker_step,
   action.worker_step]

/-- An interleaving in which a rejected `set_block_template` call precedes the
re-synchronisation of the worker. -/
def race_rejected_template : List action :=
  [action.set_block_template 9 template_v2 200,
   action.worker_step,
   action.worker_step,
   action.worker_step]

/-- A pause followed by a successful start. -/
def pause_then_start : List control_call :=
  [control_call.pause, control_call.start handler_ok 1 2 "D1" 1]

/-- A successful start followed by nested pauses and their resumes. -/
def start_then_nested_pauses : List control_call :=
  [control_call.start handler_ok 1 2 "D1" 2, control_call.pause, control_call.pause,
   control_call.resume, control_call.stop, control_call.resume]

/-- A core and wallet that deliver `template_v2`, of major version 2, with difficulty 200. -/
def handler_v2 : Handler :=
  { handler_ok with
    prepareBlockTemplate := fun _ _ =>
      some { bl := template_v2, fee := 0, di := 200, height := 6, median_size := 0,
             txs_size := 0, already_generated_coins := 0 } }

/-- A run with twenty samples: `start`, a first `merge_hr` that only records the time 1000,
then twenty times one pass of a worker loop (one hash each) followed by a `merge_hr`;
the `k`-th of them (`k = 0, ..., 19`) comes `k` milliseconds after the previous call. -/
def twenty_samples : List running_step :=
  [running_step.start handler_ok 1 2 "D1" 1, running_step.merge_hr 1000 1000] ++
    (List.range 20).flatMap fun k =>
      [running_step.worker_iteration handler_ok (worker.init miner.init 0),
       running_step.merge_hr (1000 + k * (k + 1) / 2) (1000 + k * (k + 1) / 2)]

/-- An environment in which the long hash cannot be computed. -/
def env_hash_fails : Env :=
  { env_aux_fails with get_block_longhash := fun _ => none }

/-- Whether the step is a call of `stop` or `send_stop_signal`. -/
def running_step.is_stop_call : running_step → Bool
  | running_step.stop => true
  | running_step.send_stop_signal => true
  | _ => false

/-- A run without any `stop` call: one pass of the loop of worker 0. -/
def one_worker_pass : List running_step :=
  [running_step.worker_iteration handler_ok (worker.init miner.started_four 0)]

/-- A run of the started coordinator through every kind of step but a `stop` call. -/
def busy_run : List running_step :=
  [running_step.pause,
   running_step.on_idle handler_no_template 3 true true 2000 2000,
   running_step.resume,
   running_step.worker_iteration handler_ok (worker.init miner.started_four 0),
   running_step.merge_hr 2001 2001,
   running_step.request_block_template handler_v2 4 false false,
   running_step.on_block_chain_update handler_ok 5,
   running_step.set_block_template 6 template_v1b 300,
   running_step.start handler_ok 7 8 "D1" 2,
   running_step.worker_iteration handler_ok (worker.init miner.started_four 1)]

/-- An environment in which every hash meets every difficulty. -/
def env_lucky : Env :=
  { env_aux_fails with check_hash := fun _ _ => true }

/-- A core that rejects every block handed to it. -/
def handler_rejects : Handler :=
  { handler_ok with handle_block_found := fun _ => false }

/-- Four consecutive passes on the running coordinator `miner.started_four`. -/
def four_passes : List (Handler × miner) :=
  [(handler_ok, miner.started_four), (handler_ok, miner.started_four),
   (handler_ok, miner.started_four), (handler_ok, miner.started_four)]

/-- The running coordinator `miner.started_four` after a pass of worker 0 in which the long
hash could not be computed. -/
def miner.after_hash_failure : miner :=
  ((worker.init miner.started_four 0).iteration env_hash_fails handler_ok miner.started_four).m

/-- A run without a `stop` call in which the coordinator is asked to start again. -/
def restart_attempts : List running_step :=
  [running_step.start handler_ok 7 8 "D1" 2,
   running_step.on_idle handler_ok 3 true true 2000 2000,
   running_step.worker_iteration handler_ok (worker.init miner.started_four 1),
   running_step.send_stop_signal,
   running_step.pause,
   running_step.start handler_ok 9 10 "D2" 1]

/-! ## Theorems -/

/-! ### Nonce progressions -/

/-- Closed form of the nonce progression. -/
theorem probed_nonce_eq (s i t k : Nat) :
    probed_nonce s i t k = (s + i + k * t) % UINT32_MOD := by
  induction k with
  | zero => simp [probed_nonce, nonce_start]
  | succ k ih =>
    simp only [probed_nonce, nonce_advance, ih]
    rw [Nat.add_mod, Nat.mod_mod, ← Nat.add_mod]
    congr 1
    ring

/-- Closed form with the stored thread total of a worker count `W`. -/
theorem probed_nonce_total (s i W k : Nat) :
    probed_nonce s i (threads_total_of W) k = (s + i + k * W) % UINT32_MOD := by
  rw [probed_nonce_eq]
  have h : k * (W % UINT32_MOD) ≡ k * W [MOD UINT32_MOD] :=
    Nat.ModEq.mul_left k (Nat.mod_modEq W UINT32_MOD)
  exact Nat.ModEq.add_left (s + i) h

/-- Two residues below `W` that are congruent modulo `W` are equal. -/
theorem index_eq_of_modEq (W i j a b : Nat) (hi : i < W) (hj : j < W)
    (h : i + a * W ≡ j + b * W [MOD W]) : i = j := by
  have h1 : (i + a * W) % W = (j + b * W) % W := h
  rw [Nat.add_mul_mod_self_right, Nat.add_mul_mod_self_right,
    Nat.mod_eq_of_lt hi, Nat.mod_eq_of_lt hj] at h1
  exact h1

/-- C1 (as amended): for every starter nonce and worker count `W >= 1`, two workers with
distinct indices `i, j < W` never probe the same nonce when `W` divides `2^32`; and for
every `W`, attempt `k` of worker `i` and attempt `l` of worker `j` use different nonces
as long as the offsets from the starter nonce have not run through the whole 32-bit
space (`i + k*W < 2^32`, `j + l*W < 2^32`). -/
theorem nonce_disjoint_amended (starter W i j k l : Nat) (_hW : 1 ≤ W)
    (hi : i < W) (hj : j < W) (hij : i ≠ j)
    (h : W ∣ UINT32_MOD ∨ (i + k * W < UINT32_MOD ∧ j + l * W < UINT32_MOD)) :
    probed_nonce starter i (threads_total_of W) k
      ≠ probed_nonce starter j (threads_total_of W) l := by
  rw [probed_nonce_total, probed_nonce_total]
  intro heq
  have h1 : starter + (i + k * W) ≡ starter + (j + l * W) [MOD UINT32_MOD] := by
    have : (starter + i + k * W) % UINT32_MOD = (starter + j + l * W) % UINT32_MOD := heq
    simpa [Nat.ModEq, Nat.add_assoc] using this
  have h2 : i + k * W ≡ j + l * W [MOD UINT32_MOD] := Nat.ModEq.add_left_cancel' starter h1
  rcases h with hdiv | ⟨hk, hl⟩
  · exact hij (index_eq_of_modEq W i j k l hi hj (Nat.ModEq.of_dvd hdiv h2))
  · have h3 : i + k * W = j + l * W := by
      have := h2
      unfold Nat.ModEq at this
      rwa [Nat.mod_eq_of_lt hk, Nat.mod_eq_of_lt hl] at this
    exact hij (index_eq_of_modEq W i j k l hi hj (by rw [h3]))

/-- Witness for C1: four workers, worker 0 at its second attempt and worker 1 at its third. -/
theorem nonce_disjoint_amended_witness :
    (1 ≤ 4 ∧ 0 < 4 ∧ 1 < 4 ∧ (0 : Nat) ≠ 1 ∧ 4 ∣ UINT32_MOD) ∧
    probed_nonce 4294967295 0 (threads_total_of 4) 1
      ≠ probed_nonce 4294967295 1 (threads_total_of 4) 2 :=
  ⟨by decide,
    nonce_disjoint_amended 4294967295 4 0 1 1 2 (by decide) (by decide) (by decide) (by decide)
      (Or.inl (by decide))⟩

/-- C1 (counterexample): with three workers and starter nonce 0, the attempt number
2863311531 of worker 0 probes nonce 1, which is the first nonce of worker 1. -/
theorem nonce_disjoint_counterexample :
    (1 : Nat) ≤ 3 ∧ 0 < 3 ∧ 1 < 3 ∧ (0 : Nat) ≠ 1 ∧ (0 : Nat) < UINT32_MOD ∧
    probed_nonce 0 0 (threads_total_of 3) 2863311531 = 1 ∧
    probed_nonce 0 1 (threads_total_of 3) 0 = 1 ∧
    ¬ (∀ starter W i j k l : Nat, starter < UINT32_MOD → 1 ≤ W → i < W → j < W → i ≠ j →
        probed_nonce starter i (threads_total_of W) k
          ≠ probed_nonce starter j (threads_total_of W) l) := by
  have e1 : probed_nonce 0 0 (threads_total_of 3) 2863311531 = 1 := by
    rw [probed_nonce_total]; decide
  have e2 : probed_nonce 0 1 (threads_total_of 3) 0 = 1 := by
    rw [probed_nonce_total]; decide
  refine ⟨by decide, by decide, by decide, by decide, by decide, e1, e2, ?_⟩
  intro hall
  exact hall 0 3 0 1 2863311531 0 (by decide) (by decide) (by decide) (by decide) (by decide)
    (e1.trans e2.symm)

/-! ### Template store -/

/-- The state `miner.started_four` is the one `start("D1", 4)` reaches from the fresh coordinator. -/
theorem start_four_on_fresh :
    miner.init.start env_aux_fails handler_ok 1 2 "D1" 4 = some (true, miner.started_four) := by
  decide

/-- The fields `set_block_template` does not touch. -/
theorem set_block_template_frame (env : Env) (rnd : Nat) (s : miner) (bl : Block) (di : Nat) :
    let r := (s.set_block_template env rnd bl di).2
    r.m_stop = s.m_stop ∧ r.m_pausers_count = s.m_pausers_count ∧
    r.m_threads_total = s.m_threads_total ∧ r.m_threads = s.m_threads ∧
    r.m_mine_address = s.m_mine_address ∧ r.m_mine_address_str = s.m_mine_address_str ∧
    r.m_current_hash_rate = s.m_current_hash_rate ∧ r.m_hashes = s.m_hashes ∧
    r.m_last_hr_merge_time = s.m_last_hr_merge_time ∧
    r.m_last_hash_rates = s.m_last_hash_rates ∧ r.m_do_mining = s.m_do_mining := by
  simp only [miner.set_block_template, miner.publish]
  split_ifs <;> try split
  all_goals (try split_ifs) <;> simp

/-- A successful `set_block_template` advances the version by one modulo `2^32` and stores
the difficulty and the drawn starter nonce. -/
theorem set_block_template_true (env : Env) (rnd : Nat) (s : miner) (bl : Block) (di : Nat)
    (h : (s.set_block_template env rnd bl di).1 = true) :
    (s.set_block_template env rnd bl di).2.m_template_no = (s.m_template_no + 1) % UINT32_MOD ∧
    (s.set_block_template env rnd bl di).2.m_diffic = di ∧
    (s.set_block_template env rnd bl di).2.m_starter_nonce = rnd % UINT32_MOD := by
  revert h
  simp only [miner.set_block_template, miner.publish]
  split_ifs <;> try split
  all_goals (try split_ifs) <;> simp

/-- A failed `set_block_template` leaves the version, the difficulty and the starter
nonce as they were. -/
theorem set_block_template_false (env : Env) (rnd : Nat) (s : miner) (bl : Block) (di : Nat)
    (h : (s.set_block_template env rnd bl di).1 = false) :
    (s.set_block_template env rnd bl di).2.m_template_no = s.m_template_no ∧
    (s.set_block_template env rnd bl di).2.m_diffic = s.m_diffic ∧
    (s.set_block_template env rnd bl di).2.m_starter_nonce = s.m_starter_nonce := by
  revert h
  simp only [miner.set_block_template, miner.publish]
  split_ifs <;> try split
  all_goals (try split_ifs) <;> simp

/-- C2 (the code at the failing input): on the running coordinator `miner.started_four`
(template of major version 1, difficulty 100, version 1), a `set_block_template` call
with a template of major version 2 for which the tag construction fails returns false
and leaves difficulty, version and starter nonce as they were, but the stored template
is no longer the published one: it is the rejected template, both when
`get_aux_block_header_hash` fails and when `appendMergeMiningTagToExtra` fails. -/
theorem set_block_template_failure_overwrites_template :
    template_v2.majorVersion = BLOCK_MAJOR_VERSION_2 ∧
    env_aux_fails.get_aux_block_header_hash template_v2 = none ∧
    (env_append_fails.appendMergeMiningTagToExtra []
      { depth := 0, merkleRoot := [7] }).1 = false ∧
    miner.started_four.m_template.majorVersion = 1 ∧
    miner.started_four.m_diffic = 100 ∧
    miner.started_four.m_template_no = 1 ∧
    (miner.started_four.set_block_template env_aux_fails 9 template_v2 200).1 = false ∧
    (miner.started_four.set_block_template env_aux_fails 9 template_v2 200).2.m_diffic = 100 ∧
    (miner.started_four.set_block_template env_aux_fails 9 template_v2 200).2.m_template_no = 1 ∧
    (miner.started_four.set_block_template env_aux_fails 9 template_v2 200).2.m_starter_nonce
      = miner.started_four.m_starter_nonce ∧
    (miner.started_four.set_block_template env_aux_fails 9 template_v2 200).2.m_template
      = template_v2 ∧
    (miner.started_four.set_block_template env_append_fails 9 template_v2 200).1 = false ∧
    (miner.started_four.set_block_template env_append_fails 9 template_v2 200).2.m_template
      = { template_v2 with parentBlock_baseTransaction_extra := [] } ∧
    (miner.started_four.set_block_template env_aux_fails 9 template_v2 200).2.m_template
      ≠ miner.started_four.m_template ∧
    (miner.started_four.set_block_template env_append_fails 9 template_v2 200).2.m_template
      ≠ miner.started_four.m_template := by
  decide

/-- One call changes the version as its result says: plus one modulo `2^32` on true, not
at all on false. -/
theorem apply_template_call_version (env : Env) (s : miner) (c : template_call) :
    (s.apply_template_call env c).2.m_template_no
      = if (s.apply_template_call env c).1 then (s.m_template_no + 1) % UINT32_MOD
        else s.m_template_no := by
  unfold miner.apply_template_call
  cases h : (s.set_block_template env c.rnd c.bl c.di).1
  · simpa using (set_block_template_false env c.rnd s c.bl c.di h).1
  · simpa using (set_block_template_true env c.rnd s c.bl c.di h).1

/-- The successes of a concatenation. -/
theorem template_successes_append (env : Env) (s : miner) (pre post : List template_call) :
    miner.template_successes env s (pre ++ post)
      = miner.template_successes env s pre
        + miner.template_successes env (s.run_template_calls env pre) post := by
  induction pre generalizing s with
  | nil => simp [miner.template_successes, miner.run_template_calls]
  | cons c cs ih =>
    have h := ih (s.apply_template_call env c).2
    simp only [miner.run_template_calls] at h
    rw [List.cons_append]
    simp only [miner.template_successes, miner.run_template_calls, List.foldl_cons]
    rw [h]
    omega

/-- While the counter does not wrap, the version after a sequence of calls is the version
before plus the number of successful calls. -/
theorem run_template_calls_version (env : Env) (s : miner) (calls : List template_call)
    (h : s.m_template_no + miner.template_successes env s calls < UINT32_MOD) :
    (s.run_template_calls env calls).m_template_no
      = s.m_template_no + miner.template_successes env s calls := by
  induction calls generalizing s with
  | nil => simp [miner.template_successes, miner.run_template_calls]
  | cons c cs ih =>
    simp only [miner.template_successes] at h
    have hv := apply_template_call_version env s c
    simp only [miner.run_template_calls, List.foldl_cons, miner.template_successes]
    have ih2 := ih (s.apply_template_call env c).2
    simp only [miner.run_template_calls] at ih2
    cases hc : (s.apply_template_call env c).1
    · rw [hc] at hv h
      simp only [Bool.false_eq_true, if_false] at hv h
      rw [ih2 (by rw [hv]; omega), hv]
      simp
    · rw [hc] at hv h
      simp only [if_true] at hv h
      have hlt : s.m_template_no + 1 < UINT32_MOD := by omega
      rw [Nat.mod_eq_of_lt hlt] at hv
      rw [ih2 (by rw [hv]; omega), hv]
      simp
      omega

/-- C3: a `set_block_template` call that returns true advances the version counter by one
(modulo `2^32`, the range of the counter) and a call that returns false leaves it
unchanged; and for every sequence of calls on a freshly constructed coordinator of
which `N < 2^32` succeed, the version after the sequence is `N`, every successful call
of the sequence takes the version from `v` to `v + 1`, every failed one leaves it, and
the version after a shorter part of the sequence is never greater than after a longer
one. -/
theorem template_version_counts_successes (env : Env) :
    (∀ (s : miner) (rnd : Nat) (bl : Block) (di : Nat),
      ((s.set_block_template env rnd bl di).1 = true →
        (s.set_block_template env rnd bl di).2.m_template_no
          = (s.m_template_no + 1) % UINT32_MOD) ∧
      ((s.set_block_template env rnd bl di).1 = false →
        (s.set_block_template env rnd bl di).2.m_template_no = s.m_template_no)) ∧
    (∀ calls : List template_call,
      miner.template_successes env miner.init calls < UINT32_MOD →
      miner.init.m_template_no = 0 ∧
      (miner.init.run_template_calls env calls).m_template_no
        = miner.template_successes env miner.init calls ∧
      (∀ (pre post : List template_call) (c : template_call), calls = pre ++ c :: post →
        (((miner.init.run_template_calls env pre).apply_template_call env c).1 = true →
          ((miner.init.run_template_calls env pre).apply_template_call env c).2.m_template_no
            = (miner.init.run_template_calls env pre).m_template_no + 1) ∧
        (((miner.init.run_template_calls env pre).apply_template_call env c).1 = false →
          ((miner.init.run_template_calls env pre).apply_template_call env c).2.m_template_no
            = (miner.init.run_template_calls env pre).m_template_no)) ∧
      (∀ (pre mid post : List template_call), calls = pre ++ mid ++ post →
        (miner.init.run_template_calls env pre).m_template_no
          ≤ (miner.init.run_template_calls env (pre ++ mid)).m_template_no)) := by
  have h0 : miner.init.m_template_no = 0 := rfl
  refine ⟨fun s rnd bl di => ⟨fun h => (set_block_template_true env rnd s bl di h).1,
    fun h => (set_block_template_false env rnd s bl di h).1⟩, ?_⟩
  intro calls hN
  refine ⟨h0, ?_, ?_, ?_⟩
  · have := run_template_calls_version env miner.init calls (by rw [h0]; omega)
    rw [this, h0]; omega
  · intro pre post c hcalls
    subst hcalls
    rw [template_successes_append] at hN
    simp only [miner.template_successes] at hN
    have hpre := run_template_calls_version env miner.init pre (by rw [h0]; omega)
    have hv := apply_template_call_version env (miner.init.run_template_calls env pre) c
    constructor
    · intro hc
      rw [hc] at hv hN
      simp only [if_true] at hv hN
      rw [hv]
      apply Nat.mod_eq_of_lt
      rw [hpre, h0]; omega
    · intro hc
      rw [hc] at hv
      simpa using hv
  · intro pre mid post hcalls
    subst hcalls
    rw [template_successes_append, template_successes_append] at hN
    have hpre := run_template_calls_version env miner.init pre (by rw [h0]; omega)
    have hmid := run_template_calls_version env miner.init (pre ++ mid) (by
      rw [h0, template_successes_append]; omega)
    rw [hpre, hmid, template_successes_append]
    omega

/-- Witness for C3: three calls on a fresh coordinator, the second of which fails. -/
theorem template_version_counts_successes_witness :
    miner.template_successes env_aux_fails miner.init
        [⟨7, template_v1, 100⟩, ⟨8, template_v2, 200⟩, ⟨9, template_v1b, 300⟩] = 2 ∧
    (miner.init.run_template_calls env_aux_fails
        [⟨7, template_v1, 100⟩, ⟨8, template_v2, 200⟩, ⟨9, template_v1b, 300⟩]).m_template_no
      = miner.template_successes env_aux_fails miner.init
        [⟨7, template_v1, 100⟩, ⟨8, template_v2, 200⟩, ⟨9, template_v1b, 300⟩] :=
  ⟨by decide,
    ((template_version_counts_successes env_aux_fails).2
      [⟨7, template_v1, 100⟩, ⟨8, template_v2, 200⟩, ⟨9, template_v1b, 300⟩]
      (by decide)).2.1⟩

/-- Three worker steps taken without interference from the version check, when the
recorded version differs from the current one, are the re-synchronisation of lines
318-326. -/
theorem worker_steps_uninterrupted (env : Env) (sys : system)
    (hpc : sys.pc = resync_pc.at_version_check)
    (hver : sys.w.local_template_ver ≠ sys.m.m_template_no) :
    sys.run env [action.worker_step, action.worker_step, action.worker_step]
      = { sys with w := sys.w.resync sys.m } := by
  obtain ⟨m, w, pc⟩ := sys
  simp only at hpc hver
  subst hpc
  simp [system.run, system.step, worker.resync, hver]

/-- C4 (the code at the failing interleaving): on the running coordinator
`miner.started_four` (version 1 published), a worker copies template and difficulty of
version 1 under the lock; before it reads the version, a second template is published;
the worker then records version 2 and the starter nonce of version 2 while its cached
template and difficulty are those of version 1, and its recorded version equals the
current one, so the check of line 318 will not make it copy again. In the second
interleaving a rejected `set_block_template` call has overwritten the stored template,
and the worker that records version 1 holds the rejected template. -/
theorem worker_snapshot_mixes_versions :
    miner.started_four.is_mining = true ∧ miner.started_four.m_pausers_count = 0 ∧
    miner.started_four.m_template_no = 1 ∧
    ((system.enter miner.started_four 0).run env_aux_fails
        race_publish_between_copy_and_version).w.local_template_ver = 2 ∧
    ((system.enter miner.started_four 0).run env_aux_fails
        race_publish_between_copy_and_version).w.b = miner.started_four.m_template ∧
    ((system.enter miner.started_four 0).run env_aux_fails
        race_publish_between_copy_and_version).w.local_diff = 100 ∧
    ((system.enter miner.started_four 0).run env_aux_fails
        race_publish_between_copy_and_version).w.nonce = 9 ∧
    ((system.enter miner.started_four 0).run env_aux_fails
        race_publish_between_copy_and_version).m.m_template_no = 2 ∧
    ((system.enter miner.started_four 0).run env_aux_fails
        race_publish_between_copy_and_version).m.m_template = template_v1b ∧
    ((system.enter miner.started_four 0).run env_aux_fails
        race_publish_between_copy_and_version).m.m_diffic = 300 ∧
    ((system.enter miner.started_four 0).run env_aux_fails
        race_publish_between_copy_and_version).m.m_starter_nonce = 9 ∧
    ((system.enter miner.started_four 0).run env_aux_fails
        race_publish_between_copy_and_version).pc = resync_pc.at_version_check ∧
    miner.started_four.m_template ≠ template_v1b ∧
    ((system.enter miner.started_four 0).run env_aux_fails
        race_rejected_template).w.local_template_ver = 1 ∧
    ((system.enter miner.started_four 0).run env_aux_fails race_rejected_template).w.b
      = template_v2 ∧
    ((system.enter miner.started_four 0).run env_aux_fails race_rejected_template).w.local_diff
      = 100 ∧
    ((system.enter miner.started_four 0).run env_aux_fails
        race_rejected_template).m.m_template_no = 1 ∧
    template_v2 ≠ miner.started_four.m_template := by
  decide

/-! ### Pause and resume -/

/-- The counter after `pause`. -/
theorem pause_count (s : miner) : s.pause.1.m_pausers_count = s.m_pausers_count + 1 := rfl

/-- The counter after `resume`: one less, clamped at zero. -/
theorem resume_count (s : miner) :
    s.resume.1.m_pausers_count
      = if s.m_pausers_count - 1 < 0 then 0 else s.m_pausers_count - 1 := by
  unfold miner.resume
  by_cases h : s.m_pausers_count - 1 < 0 <;> simp [h]

/-- The pauses and resumes of a sequence that starts with `pause`. -/
theorem balanced_counts_cons (c : pause_call) (cs : List pause_call) (n : Nat) :
    pause_call.pauses ((c :: cs).take (n + 1))
        = (if c = pause_call.pause then 1 else 0) + pause_call.pauses (cs.take n) ∧
    pause_call.resumes ((c :: cs).take (n + 1))
        = (if c = pause_call.resume then 1 else 0) + pause_call.resumes (cs.take n) := by
  cases c <;> simp [pause_call.pauses, pause_call.resumes, List.take, List.count_cons] <;> omega

/-- From a non-negative counter `c`, a sequence none of whose initial parts has more than
`c` resumes in excess of its pauses ends with counter `c + pauses - resumes`. -/
theorem run_pause_calls_count (calls : List pause_call) (s : miner)
    (hc : 0 ≤ s.m_pausers_count)
    (hb : ∀ n : Nat, (pause_call.resumes (calls.take n) : Int)
      ≤ s.m_pausers_count + pause_call.pauses (calls.take n)) :
    (s.run_pause_calls calls).m_pausers_count
      = s.m_pausers_count + pause_call.pauses calls - pause_call.resumes calls := by
  induction calls generalizing s with
  | nil => simp [miner.run_pause_calls, pause_call.pauses, pause_call.resumes]
  | cons c cs ih =>
    have hfull := balanced_counts_cons c cs cs.length
    rw [List.take_of_length_le (by simp), List.take_of_length_le (by simp)] at hfull
    cases c with
    | pause =>
      have hstep : (s.apply_pause_call pause_call.pause).m_pausers_count
          = s.m_pausers_count + 1 := pause_count s
      have := ih (s.apply_pause_call pause_call.pause) (by rw [hstep]; omega) (by
        intro n
        have h1 := hb (n + 1)
        have h2 := balanced_counts_cons pause_call.pause cs n
        rw [h2.1, h2.2] at h1
        rw [hstep]
        simp at h1
        omega)
      simp only [miner.run_pause_calls, List.foldl_cons] at this ⊢
      rw [this, hstep, hfull.1, hfull.2]
      simp
      omega
    | resume =>
      have h1 := hb 1
      simp [pause_call.pauses, pause_call.resumes] at h1
      have hstep : (s.apply_pause_call pause_call.resume).m_pausers_count
          = s.m_pausers_count - 1 := by
        show s.resume.1.m_pausers_count = _
        rw [resume_count, if_neg (by omega)]
      have := ih (s.apply_pause_call pause_call.resume) (by rw [hstep]; omega) (by
        intro n
        have h1 := hb (n + 1)
        have h2 := balanced_counts_cons pause_call.resume cs n
        rw [h2.1, h2.2] at h1
        rw [hstep]
        simp at h1
        omega)
      simp only [miner.run_pause_calls, List.foldl_cons] at this ⊢
      rw [this, hstep, hfull.1, hfull.2]
      simp
      omega

/-- Pauses followed by as many resumes are balanced. -/
theorem balanced_replicate (P : Nat) :
    pause_call.balanced
      (List.replicate P pause_call.pause ++ List.replicate P pause_call.resume) := by
  intro n
  simp only [pause_call.resumes, pause_call.pauses, List.take_append_eq_append_take,
    List.take_replicate, List.count_append, List.count_replicate, List.length_replicate]
  simp

/-- C5: from pause counter 0, every sequence of `pause` and `resume` calls none of whose
initial parts has more resumes than pauses ends with counter (pauses - resumes); `P`
pauses followed by `P` resumes end with counter 0; `pause, pause, resume` ends with
counter 1 and one further `resume` with counter 0. -/
theorem pause_counter_balance (s : miner) (h0 : s.m_pausers_count = 0) :
    (∀ calls : List pause_call, pause_call.balanced calls →
      (s.run_pause_calls calls).m_pausers_count
        = (pause_call.pauses calls : Int) - pause_call.resumes calls) ∧
    (∀ P : Nat,
      (s.run_pause_calls
        (List.replicate P pause_call.pause ++ List.replicate P pause_call.resume)).m_pausers_count
        = 0) ∧
    (s.run_pause_calls [pause_call.pause, pause_call.pause, pause_call.resume]).m_pausers_count
      = 1 ∧
    (s.run_pause_calls
      [pause_call.pause, pause_call.pause, pause_call.resume, pause_call.resume]).m_pausers_count
      = 0 := by
  have main : ∀ calls : List pause_call, pause_call.balanced calls →
      (s.run_pause_calls calls).m_pausers_count
        = (pause_call.pauses calls : Int) - pause_call.resumes calls := by
    intro calls hb
    have := run_pause_calls_count calls s (by omega) (by
      intro n
      have := hb n
      omega)
    rw [this, h0]; omega
  refine ⟨main, ?_, ?_, ?_⟩
  · intro P
    rw [main _ (balanced_replicate P)]
    simp [pause_call.pauses, pause_call.resumes, List.count_append, List.count_replicate]
  · simp [miner.run_pause_calls, miner.apply_pause_call, pause_count, resume_count, h0]
  · simp [miner.run_pause_calls, miner.apply_pause_call, pause_count, resume_count, h0]

/-- Witness for C5: the fresh coordinator and the sequence pause, resume, pause. -/
theorem pause_counter_balance_witness :
    miner.init.m_pausers_count = 0 ∧
    (miner.init.run_pause_calls
      [pause_call.pause, pause_call.resume, pause_call.pause]).m_pausers_count
      = (pause_call.pauses [pause_call.pause, pause_call.resume, pause_call.pause] : Int)
        - pause_call.resumes [pause_call.pause, pause_call.resume, pause_call.pause] :=
  ⟨rfl, (pause_counter_balance miner.init rfl).1
    [pause_call.pause, pause_call.resume, pause_call.pause] (by
      intro n
      rcases n with _ | _ | _ | _ | n <;> simp [pause_call.pauses, pause_call.resumes])⟩

/-- A call of `pause` or `resume` keeps a non-negative counter non-negative. -/
theorem apply_pause_call_nonneg (s : miner) (c : pause_call) (h : 0 ≤ s.m_pausers_count) :
    0 ≤ (s.apply_pause_call c).m_pausers_count := by
  cases c with
  | pause =>
    show 0 ≤ s.pause.1.m_pausers_count
    rw [pause_count]; omega
  | resume =>
    show 0 ≤ s.resume.1.m_pausers_count
    rw [resume_count]
    split_ifs <;> omega

/-- A sequence of `pause` and `resume` calls keeps a non-negative counter non-negative. -/
theorem run_pause_calls_nonneg (calls : List pause_call) (s : miner)
    (h : 0 ≤ s.m_pausers_count) : 0 ≤ (s.run_pause_calls calls).m_pausers_count := by
  induction calls generalizing s with
  | nil => simpa [miner.run_pause_calls] using h
  | cons c cs ih =>
    simp only [miner.run_pause_calls, List.foldl_cons]
    exact ih _ (apply_pause_call_nonneg s c h)

/-- C6: `resume` called while the pause counter is 0 logs the error
`Unexpected miner::resume() called` and leaves the counter at 0; and from a
non-negative counter, the counter is non-negative after every call of every sequence
of `pause` and `resume` calls. -/
theorem resume_misuse_clamped :
    (∀ s : miner, s.m_pausers_count = 0 →
      s.resume.1.m_pausers_count = 0 ∧
      (⟨Level.ERROR, "Unexpected miner::resume() called"⟩ : LogLine) ∈ s.resume.2) ∧
    (∀ (s : miner) (calls : List pause_call), 0 ≤ s.m_pausers_count →
      ∀ n : Nat, 0 ≤ (s.run_pause_calls (calls.take n)).m_pausers_count) := by
  constructor
  · intro s h0
    constructor
    · rw [resume_count, h0]; simp
    · simp [miner.resume, h0]
  · intro s calls h n
    exact run_pause_calls_nonneg _ s h

/-- Witness for C6: on the fresh coordinator, whose counter is 0, `resume` logs the error
and the counter stays 0; after `resume, pause, resume, resume` it is still 0. -/
theorem resume_misuse_clamped_witness :
    miner.init.m_pausers_count = 0 ∧
    miner.init.resume.1.m_pausers_count = 0 ∧
    miner.init.resume.2 = [⟨Level.ERROR, "Unexpected miner::resume() called"⟩] ∧
    0 ≤ (miner.init.run_pause_calls
      ([pause_call.resume, pause_call.pause, pause_call.resume, pause_call.resume].take
        4)).m_pausers_count :=
  ⟨rfl, (resume_misuse_clamped.1 miner.init rfl).1, by decide,
    resume_misuse_clamped.2 miner.init
      [pause_call.resume, pause_call.pause, pause_call.resume, pause_call.resume]
      (by decide) 4⟩

/-! ### Start -/

/-- The fields `request_block_template` does not touch; a failed request changes nothing. -/
theorem request_block_template_frame (env : Env) (h : Handler) (rnd : Nat) (s : miner)
    (w l : Bool) :
    ((s.request_block_template env h rnd w l).1 = false →
      (s.request_block_template env h rnd w l).2 = s) ∧
    (s.request_block_template env h rnd w l).2.m_stop = s.m_stop ∧
    (s.request_block_template env h rnd w l).2.m_pausers_count = s.m_pausers_count ∧
    (s.request_block_template env h rnd w l).2.m_threads_total = s.m_threads_total ∧
    (s.request_block_template env h rnd w l).2.m_threads = s.m_threads ∧
    (s.request_block_template env h rnd w l).2.m_mine_address_str = s.m_mine_address_str ∧
    (s.request_block_template env h rnd w l).2.m_current_hash_rate = s.m_current_hash_rate := by
  unfold miner.request_block_template
  dsimp only
  cases h.prepareBlockTemplate s.m_mine_address [] with
  | none => simp
  | some p =>
    dsimp only
    cases h.getStake p.bl.majorVersion p.fee p.height p.di p.median_size
        p.already_generated_coins p.txs_size with
    | none => simp
    | some st =>
      dsimp only
      cases h.getStakeTransaction s.m_mine_address_str st.stake st.reward 0
          (st.height + env.unlock_window) "" p.bl.baseTransaction with
      | none => simp
      | some tx =>
        have hf := set_block_template_frame env rnd s { p.bl with baseTransaction := tx } st.di
        simp only at hf
        obtain ⟨h1, h2, h3, h4, _, h6, h7, _⟩ := hf
        simp [h1, h2, h3, h4, h6, h7]

/-- The fields the template request of `start` leaves as `start` configured them. -/
theorem start_request_frame (env : Env) (h : Handler) (r1 r2 : Nat) (s : miner)
    (address : String) (n : Nat) :
    (s.start_request env h r1 r2 address n).2.m_stop = s.m_stop ∧
    (s.start_request env h r1 r2 address n).2.m_pausers_count = s.m_pausers_count ∧
    (s.start_request env h r1 r2 address n).2.m_threads_total = n % UINT32_MOD ∧
    (s.start_request env h r1 r2 address n).2.m_threads = s.m_threads ∧
    (s.start_request env h r1 r2 address n).2.m_mine_address_str = address ∧
    (s.start_request env h r1 r2 address n).2.m_current_hash_rate = s.m_current_hash_rate := by
  unfold miner.start_request
  obtain ⟨_, h1, h2, h3, h4, h5, h6⟩ := request_block_template_frame env h r2
    (({ s with m_mine_address :=
        (env.parseAccountAddressString address s.m_mine_address).2 } : miner).start_configure
      address n r1) false true
  simp only [h1, h2, h3, h4, h5, h6]
  simp [miner.start_configure]

/-- The spawn loop started at index `i` with `d` indices to go registers them in order. -/
theorem spawn_loop_range (d i n : Nat) (ths : List Nat) (h : i + d = n)
    (hn : n < UINT32_MOD) : spawn_loop (d + 1) i n ths = some (ths ++ List.range' i d) := by
  induction d generalizing i ths with
  | zero =>
    have : i = n := by omega
    subst this
    simp [spawn_loop]
  | succ d ih =>
    have hne : i ≠ n := by omega
    have hmod : (i + 1) % UINT32_MOD = i + 1 := Nat.mod_eq_of_lt (by omega)
    rw [spawn_loop, if_pos hne, hmod, ih (i + 1) (ths ++ [i]) (by omega)]
    simp [List.range'_succ]

/-- From an empty registry the spawn loop registers the indices `0, ..., n - 1`. -/
theorem spawn_loop_all (n : Nat) (hn : n < UINT32_MOD) :
    spawn_loop (n + 1) 0 n [] = some (List.range n) := by
  rw [spawn_loop_range n 0 n [] (by omega) hn, List.range_eq_range']
  simp

/-- For a thread count of `2^32` or more the spawn loop never reaches its exit: no amount
of fuel makes it return. -/
theorem spawn_loop_no_return (fuel i n : Nat) (ths : List Nat) (hi : i < UINT32_MOD)
    (hn : UINT32_MOD ≤ n) : spawn_loop fuel i n ths = none := by
  induction fuel generalizing i ths with
  | zero => rfl
  | succ fuel ih =>
    have hne : i ≠ n := by omega
    rw [spawn_loop, if_pos hne]
    exact ih _ _ (Nat.mod_lt _ (by decide))

/-- What a `start` call that returns true has done. -/
theorem start_success (env : Env) (h : Handler) (r1 r2 : Nat) (s s' : miner)
    (address : String) (n : Nat) (hst : s.start env h r1 r2 address n = some (true, s')) :
    s.is_mining = false ∧ s.m_threads = [] ∧
    (env.parseAccountAddressString address s.m_mine_address).1 = true ∧
    (s.start_request env h r1 r2 address n).1 = true ∧
    ∃ ths, spawn_loop (n + 1) 0 n [] = some ths ∧
      s' = { (s.start_request env h r1 r2 address n).2 with
              m_stop := false, m_pausers_count := 0, m_threads := ths } := by
  unfold miner.start at hst
  dsimp only at hst
  split_ifs at hst with h1 h2 h3 h4
  all_goals try (simp at hst; done)
  have hth : s.m_threads = [] := by simpa using h2
  have hth2 := (start_request_frame env h r1 r2 s address n).2.2.2.1
  rw [hth2, hth, Option.map_eq_some'] at hst
  obtain ⟨ths, hsp, heq⟩ := hst
  simp only [Prod.mk.injEq, true_and] at heq
  exact ⟨by simpa using h1, hth, by simpa using h3, by simpa using h4, ths, hsp, heq.symm⟩

/-- What a `start` call that returns false leaves unchanged. -/
theorem start_failure (env : Env) (h : Handler) (r1 r2 : Nat) (s s' : miner)
    (address : String) (n : Nat) (hst : s.start env h r1 r2 address n = some (false, s')) :
    s'.m_stop = s.m_stop ∧ s'.m_threads = s.m_threads ∧
    s'.m_pausers_count = s.m_pausers_count ∧
    s'.m_current_hash_rate = s.m_current_hash_rate := by
  unfold miner.start at hst
  dsimp only at hst
  split_ifs at hst with h1 h2 h3 h4
  · cases hst; exact ⟨rfl, rfl, rfl, rfl⟩
  · cases hst; exact ⟨rfl, rfl, rfl, rfl⟩
  · cases hst
    obtain ⟨f1, f2, _, f4, _, f6⟩ := start_request_frame env h r1 r2 s address n
    exact ⟨f1, f4, f2, f6⟩
  · rw [Option.map_eq_some'] at hst
    obtain ⟨ths, _, heq⟩ := hst
    simp at heq
  · cases hst; exact ⟨rfl, rfl, rfl, rfl⟩

/-- On a stopped coordinator with an empty registry, `start` with an address that does
not parse returns false after storing what the parser left in `m_mine_address`. -/
theorem start_of_parse_failure (env : Env) (h : Handler) (r1 r2 : Nat) (s : miner)
    (address : String) (n : Nat) (hs : s.is_mining = false) (ht : s.m_threads = [])
    (hp : (env.parseAccountAddressString address s.m_mine_address).1 = false) :
    s.start env h r1 r2 address n
      = some (false, { s with m_mine_address :=
          (env.parseAccountAddressString address s.m_mine_address).2 }) := by
  simp [miner.start, hs, ht, hp]

/-- On a stopped coordinator with an empty registry, `start` whose template request fails
returns false with the state the request left. -/
theorem start_of_request_failure (env : Env) (h : Handler) (r1 r2 : Nat) (s : miner)
    (address : String) (n : Nat) (hs : s.is_mining = false) (ht : s.m_threads = [])
    (hp : (env.parseAccountAddressString address s.m_mine_address).1 = true)
    (hr : (s.start_request env h r1 r2 address n).1 = false) :
    s.start env h r1 r2 address n
      = some (false, (s.start_request env h r1 r2 address n).2) := by
  simp [miner.start, hs, ht, hp, hr]

/-- On a stopped coordinator with an empty registry, `start` with a parsing address, a
successful template request and fewer than `2^32` threads returns true with the
workers `0, ..., n - 1` registered. -/
theorem start_of_success (env : Env) (h : Handler) (r1 r2 : Nat) (s : miner)
    (address : String) (n : Nat) (hs : s.is_mining = false) (ht : s.m_threads = [])
    (hp : (env.parseAccountAddressString address s.m_mine_address).1 = true)
    (hr : (s.start_request env h r1 r2 address n).1 = true) (hn : n < UINT32_MOD) :
    s.start env h r1 r2 address n
      = some (true, { (s.start_request env h r1 r2 address n).2 with
          m_stop := false, m_pausers_count := 0, m_threads := List.range n }) := by
  have hth2 := (start_request_frame env h r1 r2 s address n).2.2.2.1
  simp [miner.start, hs, ht, hp, hr, hth2, spawn_loop_all n hn]

/-- C8: if `start(address, threads_count)` returns true and `threads_count < 2^32`, then
afterwards `is_mining()` is true, the pause counter is 0, `m_threads_total` equals
`threads_count`, the remembered address string equals `address`, and the registry
holds exactly `threads_count` workers, one for each index `0, ..., threads_count - 1`. -/
theorem start_success_state (env : Env) (h : Handler) (r1 r2 : Nat) (s s' : miner)
    (address : String) (threads_count : Nat) (hn : threads_count < UINT32_MOD)
    (hst : s.start env h r1 r2 address threads_count = some (true, s')) :
    s'.is_mining = true ∧ s'.m_pausers_count = 0 ∧ s'.m_threads_total = threads_count ∧
    s'.m_mine_address_str = address ∧ s'.m_threads = List.range threads_count ∧
    s'.m_threads.length = threads_count ∧ s'.m_threads.Nodup ∧
    (∀ i : Nat, i ∈ s'.m_threads ↔ i < threads_count) := by
  obtain ⟨_, _, _, _, ths, hsp, hs'⟩ := start_success env h r1 r2 s s' address threads_count hst
  rw [spawn_loop_all threads_count hn] at hsp
  cases hsp
  obtain ⟨_, _, f3, _, f5, _⟩ := start_request_frame env h r1 r2 s address threads_count
  subst hs'
  refine ⟨rfl, rfl, ?_, f5, rfl, ?_, ?_, ?_⟩
  · show (s.start_request env h r1 r2 address threads_count).2.m_threads_total = threads_count
    rw [f3, Nat.mod_eq_of_lt hn]
  · simp
  · exact List.nodup_range threads_count
  · intro i; simp

/-- Witness for C8: `start("D1", 4)` on the fresh coordinator. -/
theorem start_success_state_witness :
    (4 < UINT32_MOD ∧
      miner.init.start env_aux_fails handler_ok 1 2 "D1" 4 = some (true, miner.started_four)) ∧
    miner.started_four.is_mining = true ∧ miner.started_four.m_pausers_count = 0 ∧
    miner.started_four.m_threads_total = 4 ∧ miner.started_four.m_mine_address_str = "D1" ∧
    miner.started_four.m_threads = List.range 4 :=
  have hs := start_success_state env_aux_fails handler_ok 1 2 miner.init miner.started_four
    "D1" 4 (by decide) start_four_on_fresh
  ⟨⟨by decide, start_four_on_fresh⟩, hs.1, hs.2.1, hs.2.2.1, hs.2.2.2.1, hs.2.2.2.2.1⟩

/-- C9 (counterexample): on the fresh, stopped coordinator, `start("D1", 0)` with a
parsing address and an available template returns true, and `is_mining()` is true
afterwards, with no worker registered. -/
theorem start_zero_threads_counterexample :
    miner.init.is_mining = false ∧
    (miner.init.start env_aux_fails handler_ok 1 2 "D1" 0).map Prod.fst = some true ∧
    (miner.init.start env_aux_fails handler_ok 1 2 "D1" 0).map (fun r => r.2.is_mining)
      = some true ∧
    (miner.init.start env_aux_fails handler_ok 1 2 "D1" 0).map (fun r => r.2.m_threads)
      = some [] := by
  decide

/-- C9 (as amended): on a stopped coordinator with an empty registry, `start(address, 0)`
returns, and it returns true exactly when the address parses and the template request
succeeds; then `is_mining()` is true, no worker is registered, `m_threads_total` is 0
and the pause counter is 0; when it returns false, `is_mining()` is still false and
the registry is still empty. -/
theorem start_zero_threads_amended (env : Env) (h : Handler) (r1 r2 : Nat) (s : miner)
    (address : String) (hs : s.is_mining = false) (ht : s.m_threads = []) :
    ∃ (res : Bool) (s' : miner), s.start env h r1 r2 address 0 = some (res, s') ∧
      (res = true ↔ ((env.parseAccountAddressString address s.m_mine_address).1 = true ∧
        (s.start_request env h r1 r2 address 0).1 = true)) ∧
      (res = true → s'.is_mining = true ∧ s'.m_threads = [] ∧ s'.m_threads_total = 0 ∧
        s'.m_pausers_count = 0) ∧
      (res = false → s'.is_mining = false ∧ s'.m_threads = []) := by
  obtain ⟨f1, _, f3, f4, _, _⟩ := start_request_frame env h r1 r2 s address 0
  have hstop : s.m_stop = true := by simpa [miner.is_mining] using hs
  cases hp : (env.parseAccountAddressString address s.m_mine_address).1
  · refine ⟨false, _, start_of_parse_failure env h r1 r2 s address 0 hs ht hp, by simp, by simp,
      fun _ => ⟨?_, ht⟩⟩
    simpa [miner.is_mining] using hstop
  · cases hr : (s.start_request env h r1 r2 address 0).1
    · refine ⟨false, _, start_of_request_failure env h r1 r2 s address 0 hs ht hp hr, by simp,
        by simp, fun _ => ⟨?_, ?_⟩⟩
      · simp [miner.is_mining, f1, hstop]
      · rw [f4, ht]
    · refine ⟨true, _, start_of_success env h r1 r2 s address 0 hs ht hp hr (by decide),
        by simp, fun _ => ⟨rfl, rfl, ?_, rfl⟩, by simp⟩
      show (s.start_request env h r1 r2 address 0).2.m_threads_total = 0
      rw [f3]; rfl

/-- Witness for C9: the fresh coordinator and an address that does not parse. -/
theorem start_zero_threads_amended_witness :
    ∃ (res : Bool) (s' : miner),
      miner.init.start env_aux_fails handler_ok 1 2 "x" 0 = some (res, s') ∧
      (res = true ↔
        ((env_aux_fails.parseAccountAddressString "x" miner.init.m_mine_address).1 = true ∧
        (miner.init.start_request env_aux_fails handler_ok 1 2 "x" 0).1 = true)) ∧
      (res = true → s'.is_mining = true ∧ s'.m_threads = [] ∧ s'.m_threads_total = 0 ∧
        s'.m_pausers_count = 0) ∧
      (res = false → s'.is_mining = false ∧ s'.m_threads = []) :=
  start_zero_threads_amended env_aux_fails handler_ok 1 2 miner.init "x"
    (show miner.init.is_mining = false from rfl) (show miner.init.m_threads = [] from rfl)

/-- C10: if `start` is called on a stopped coordinator with an empty worker registry and
the address fails to parse or the template request fails, then `start` returns false
and afterwards `is_mining()` is false, `get_speed()` returns 0 and the worker
registry is still empty. -/
theorem start_failure_leaves_stopped (env : Env) (h : Handler) (r1 r2 : Nat) (s : miner)
    (address : String) (threads_count : Nat)
    (hs : s.is_mining = false) (ht : s.m_threads = [])
    (hfail : (env.parseAccountAddressString address s.m_mine_address).1 = false ∨
      (s.start_request env h r1 r2 address threads_count).1 = false) :
    ∃ s' : miner, s.start env h r1 r2 address threads_count = some (false, s') ∧
      s'.is_mining = false ∧ s'.get_speed = 0 ∧ s'.m_threads = [] := by
  have key : ∃ s' : miner, s.start env h r1 r2 address threads_count = some (false, s') := by
    cases hp : (env.parseAccountAddressString address s.m_mine_address).1
    · exact ⟨_, start_of_parse_failure env h r1 r2 s address threads_count hs ht hp⟩
    · rcases hfail with hf | hf
      · rw [hp] at hf; cases hf
      · exact ⟨_, start_of_request_failure env h r1 r2 s address threads_count hs ht hp hf⟩
  obtain ⟨s', hst⟩ := key
  obtain ⟨g1, g2, _, _⟩ := start_failure env h r1 r2 s s' address threads_count hst
  have hstop : s.m_stop = true := by simpa [miner.is_mining] using hs
  have hm : s'.is_mining = false := by simp [miner.is_mining, g1, hstop]
  exact ⟨s', hst, hm, by simp [miner.get_speed, hm], by rw [g2, ht]⟩

/-- Witness for C10: on the fresh coordinator, `start` with a core that has no template. -/
theorem start_failure_leaves_stopped_witness :
    (miner.init.is_mining = false ∧ miner.init.m_threads = [] ∧
      (miner.init.start_request env_aux_fails handler_no_template 1 2 "D1" 4).1 = false) ∧
    ∃ s' : miner,
      miner.init.start env_aux_fails handler_no_template 1 2 "D1" 4 = some (false, s') ∧
      s'.is_mining = false ∧ s'.get_speed = 0 ∧ s'.m_threads = [] :=
  ⟨by decide,
    start_failure_leaves_stopped env_aux_fails handler_no_template 1 2 miner.init "D1" 4 rfl rfl
      (Or.inr (by decide))⟩

/-! ### Pausers and the control surface -/

/-- The pauses and resumes of the first `n + 1` calls of a sequence. -/
theorem control_counts_cons (c : control_call) (cs : List control_call) (n : Nat) :
    control_call.pauses ((c :: cs).take (n + 1))
        = (if c.is_pause = true then 1 else 0) + control_call.pauses (cs.take n) ∧
    control_call.resumes ((c :: cs).take (n + 1))
        = (if c.is_resume = true then 1 else 0) + control_call.resumes (cs.take n) := by
  simp only [control_call.pauses, control_call.resumes, List.take_succ_cons, List.countP_cons]
  constructor <;> omega

/-- The pauses and resumes of a sequence with one more call in front. -/
theorem control_counts_all (c : control_call) (cs : List control_call) :
    control_call.pauses (c :: cs)
        = (if c.is_pause = true then 1 else 0) + control_call.pauses cs ∧
    control_call.resumes (c :: cs)
        = (if c.is_resume = true then 1 else 0) + control_call.resumes cs := by
  simp only [control_call.pauses, control_call.resumes, List.countP_cons]
  constructor <;> omega

/-- A `start` call changes the pause counter only when it succeeds, and then to 0. -/
theorem start_count (env : Env) (h : Handler) (r1 r2 : Nat) (s s' : miner)
    (address : String) (n : Nat) (res : Bool)
    (hst : s.start env h r1 r2 address n = some (res, s')) :
    s'.m_pausers_count = if res = true then 0 else s.m_pausers_count := by
  cases res with
  | false => simpa using (start_failure env h r1 r2 s s' address n hst).2.2.1
  | true =>
    obtain ⟨_, _, _, _, ths, _, hs'⟩ := start_success env h r1 r2 s s' address n hst
    subst hs'
    rfl

/-- From a non-negative counter `c`, a sequence of control calls in which no `start`
succeeds while the counter is non-zero and no initial part has more than `c` resumes in
excess of its pauses ends with counter `c + pauses - resumes`. -/
theorem run_control_calls_count (env : Env) (calls : List control_call) (s s' : miner)
    (hc : 0 ≤ s.m_pausers_count)
    (hb : ∀ n : Nat, (control_call.resumes (calls.take n) : Int)
      ≤ s.m_pausers_count + control_call.pauses (calls.take n))
    (hn : s.no_start_while_paused env calls = true)
    (hrun : s.run_control_calls env calls = some s') :
    s'.m_pausers_count
      = s.m_pausers_count + control_call.pauses calls - control_call.resumes calls := by
  induction calls generalizing s with
  | nil =>
    simp only [miner.run_control_calls, Option.some.injEq] at hrun
    subst hrun
    simp [control_call.pauses, control_call.resumes]
  | cons c cs ih =>
    simp only [miner.run_control_calls] at hrun
    simp only [miner.no_start_while_paused, Bool.and_eq_true, Bool.or_eq_true,
      Bool.not_eq_true', decide_eq_true_eq] at hn
    obtain ⟨hn1, hn2⟩ := hn
    cases hap : s.apply_control_call env c with
    | none => rw [hap] at hrun; simp at hrun
    | some s1 =>
      rw [hap] at hrun hn2
      simp only at hrun hn2
      have hall := control_counts_all c cs
      have hstep : s1.m_pausers_count = s.m_pausers_count
          + (if c.is_pause = true then 1 else 0) - (if c.is_resume = true then 1 else 0) := by
        cases c with
        | start h r1 r2 address n =>
          simp only [miner.apply_control_call, Option.map_eq_some'] at hap
          obtain ⟨⟨res, s2⟩, hst, hs2⟩ := hap
          simp only at hs2
          subst hs2
          have hcnt := start_count env h r1 r2 s s2 address n res hst
          cases res with
          | false => simpa [control_call.is_pause, control_call.is_resume] using hcnt
          | true =>
            have h0 : s.m_pausers_count = 0 := by
              rcases hn1 with hf | h0
              · simp [miner.start_succeeds, hst] at hf
              · exact h0
            simpa [control_call.is_pause, control_call.is_resume, h0] using hcnt
        | stop =>
          simp only [miner.apply_control_call, Option.some.injEq] at hap
          subst hap
          simp [control_call.is_pause, control_call.is_resume, miner.stop,
            miner.send_stop_signal]
        | pause =>
          simp only [miner.apply_control_call, Option.some.injEq] at hap
          subst hap
          simp [control_call.is_pause, control_call.is_resume, pause_count]
        | resume =>
          simp only [miner.apply_control_call, Option.some.injEq] at hap
          subst hap
          have h1 := hb 1
          simp [control_call.pauses, control_call.resumes, control_call.is_pause,
            control_call.is_resume] at h1
          rw [resume_count, if_neg (by omega)]
          simp [control_call.is_pause, control_call.is_resume]
      have hex : ¬ (c.is_pause = true ∧ c.is_resume = true) := by
        cases c <;> simp [control_call.is_pause, control_call.is_resume]
      have hfirst := hb 1
      have hone := control_counts_cons c cs 0
      simp only [List.take_zero] at hone
      rw [hone.1, hone.2] at hfirst
      simp only [control_call.pauses, control_call.resumes, List.countP_nil] at hfirst
      have := ih s1 (by
          rw [hstep]
          by_cases hp : c.is_pause = true <;> by_cases hr : c.is_resume = true <;>
            simp [hp, hr] at hfirst hex ⊢ <;> omega) (by
          intro n
          have h1 := hb (n + 1)
          have h2 := control_counts_cons c cs n
          rw [h2.1, h2.2] at h1
          rw [hstep]
          by_cases hp : c.is_pause = true <;> by_cases hr : c.is_resume = true <;>
            simp [hp, hr] at h1 hex ⊢ <;> omega) hn2 hrun
      rw [this, hstep, hall.1, hall.2]
      by_cases hp : c.is_pause = true <;> by_cases hr : c.is_resume = true <;>
        simp [hp, hr] at hex ⊢ <;> omega

/-- The sequence `pause_then_start` is balanced. -/
theorem pause_then_start_balanced : control_call.balanced pause_then_start := by
  intro n
  rcases n with _ | _ | _ | n <;>
    simp [pause_then_start, control_call.pauses, control_call.resumes, control_call.is_pause,
      control_call.is_resume]

/-- The sequence `start_then_nested_pauses` is balanced. -/
theorem start_then_nested_pauses_balanced : control_call.balanced start_then_nested_pauses := by
  intro n
  rcases n with _ | _ | _ | _ | _ | _ | _ | n <;>
    simp [start_then_nested_pauses, control_call.pauses, control_call.resumes,
      control_call.is_pause, control_call.is_resume]

/-- C7 (counterexample): on the fresh coordinator, `pause` followed by a successful
`start` is a sequence no initial part of which has more resumes than pauses; after it
the pause counter is 0 although one pause and no resume was called. -/
theorem pausers_compose_counterexample :
    control_call.balanced pause_then_start ∧
    (miner.init.run_control_calls env_aux_fails pause_then_start).map
      (fun s => s.m_pausers_count) = some 0 ∧
    (miner.init.run_control_calls env_aux_fails pause_then_start).map
      (fun s => s.is_mining) = some true ∧
    control_call.pauses pause_then_start = 1 ∧
    control_call.resumes pause_then_start = 0 ∧
    ¬ (∀ (env : Env) (calls : List control_call) (s' : miner),
        control_call.balanced calls →
        miner.init.run_control_calls env calls = some s' →
        s'.m_pausers_count = 0 →
        control_call.resumes calls = control_call.pauses calls) := by
  have h1 : (miner.init.run_control_calls env_aux_fails pause_then_start).map
      (fun s => s.m_pausers_count) = some 0 := by decide
  have h2 : control_call.pauses pause_then_start = 1 := by decide
  have h3 : control_call.resumes pause_then_start = 0 := by decide
  refine ⟨pause_then_start_balanced, h1, by decide, h2, h3, ?_⟩
  intro hall
  rw [Option.map_eq_some'] at h1
  obtain ⟨s', hrun, hcnt⟩ := h1
  have := hall env_aux_fails pause_then_start s' pause_then_start_balanced hrun hcnt
  rw [h2, h3] at this
  cases this

/-- C7 (as amended): for every sequence of start, stop, pause and resume calls on a
freshly constructed coordinator in which no initial part has more resume calls than
pause calls and no start call succeeds while the pause counter is non-zero, the pause
counter after the sequence is (pauses - resumes); so it is 0 exactly when the number
of resume calls equals the number of pause calls. -/
theorem pausers_compose_amended (env : Env) (calls : List control_call) (s' : miner)
    (hb : control_call.balanced calls)
    (hn : miner.init.no_start_while_paused env calls = true)
    (hrun : miner.init.run_control_calls env calls = some s') :
    s'.m_pausers_count = (control_call.pauses calls : Int) - control_call.resumes calls ∧
    (s'.m_pausers_count = 0 ↔ control_call.resumes calls = control_call.pauses calls) := by
  have h0 : miner.init.m_pausers_count = 0 := rfl
  have key := run_control_calls_count env calls miner.init s' (by rw [h0]) (by
    intro n
    have := hb n
    rw [h0]; omega) hn hrun
  rw [h0] at key
  have hle := hb calls.length
  rw [List.take_of_length_le (Nat.le_refl _)] at hle
  constructor
  · rw [key]; omega
  · rw [key]; omega

/-- Witness for C7: start, pause, pause, resume, stop, resume on the fresh coordinator. -/
theorem pausers_compose_amended_witness :
    control_call.balanced start_then_nested_pauses ∧
    miner.init.no_start_while_paused env_aux_fails start_then_nested_pauses = true ∧
    (miner.init.run_control_calls env_aux_fails start_then_nested_pauses).isSome = true ∧
    ∀ s' : miner,
      miner.init.run_control_calls env_aux_fails start_then_nested_pauses = some s' →
      (s'.m_pausers_count = 0 ↔
        control_call.resumes start_then_nested_pauses
          = control_call.pauses start_then_nested_pauses) :=
  ⟨start_then_nested_pauses_balanced, by decide, by decide, fun s' hrun =>
    (pausers_compose_amended env_aux_fails start_then_nested_pauses s'
      start_then_nested_pauses_balanced (by decide) hrun).2⟩

/-! ### Start while running, stop -/

/-- C11: `start` called while `is_mining()` is true returns false whatever the collaborators
would answer (none of them is asked) and leaves the whole coordinator state, every
field of it, unchanged. -/
theorem start_while_mining (env : Env) (h : Handler) (r1 r2 : Nat) (s : miner)
    (address : String) (threads_count : Nat) (hm : s.is_mining = true) :
    s.start env h r1 r2 address threads_count = some (false, s) ∧
    (∀ (env1 : Env) (h1 : Handler) (q1 q2 : Nat),
      s.start env1 h1 q1 q2 address threads_count
        = s.start env h r1 r2 address threads_count) := by
  have key : ∀ (env1 : Env) (h1 : Handler) (q1 q2 : Nat),
      s.start env1 h1 q1 q2 address threads_count = some (false, s) := by
    intro env1 h1 q1 q2
    simp [miner.start, hm]
  exact ⟨key env h r1 r2, fun env1 h1 q1 q2 => by rw [key env1 h1 q1 q2, key env h r1 r2]⟩

/-- Witness for C11: a second `start` on the running coordinator `miner.started_four`. -/
theorem start_while_mining_witness :
    miner.started_four.is_mining = true ∧
    miner.started_four.start env_aux_fails handler_no_template 5 6 "x" 7
      = some (false, miner.started_four) :=
  ⟨rfl, (start_while_mining env_aux_fails handler_no_template 5 6 miner.started_four "x" 7
    rfl).1⟩

/-- C12 (the code at the failing input): the core delivers a template of major version 2
for which `get_aux_block_header_hash` fails. On the fresh coordinator `start("D1", 1)`
returns true and `is_mining()` is true, but the version counter is still 0 and the
difficulty still 0: nothing was published, and the worker that enters its loop only
sleeps waiting for a template. On the running coordinator `miner.started_four`,
`request_block_template` returns true while version and difficulty stay 1 and 100 and
the stored template is replaced by the rejected one. -/
theorem start_without_published_template :
    miner.init.m_template_no = 0 ∧
    (miner.init.start env_aux_fails handler_v2 1 2 "D1" 1).map Prod.fst = some true ∧
    (miner.init.start env_aux_fails handler_v2 1 2 "D1" 1).map (fun r => r.2.is_mining)
      = some true ∧
    (miner.init.start env_aux_fails handler_v2 1 2 "D1" 1).map (fun r => r.2.m_template_no)
      = some 0 ∧
    (miner.init.start env_aux_fails handler_v2 1 2 "D1" 1).map (fun r => r.2.m_diffic)
      = some 0 ∧
    (miner.init.start env_aux_fails handler_v2 1 2 "D1" 1).map
      (fun r => ((worker.init r.2 0).iteration env_aux_fails handler_v2 r.2).events)
      = some [worker_event.sleep 1000] ∧
    (miner.started_four.request_block_template env_aux_fails handler_v2 9 false false).1
      = true ∧
    (miner.started_four.request_block_template env_aux_fails handler_v2 9 false false).2.m_template_no
      = 1 ∧
    (miner.started_four.request_block_template env_aux_fails handler_v2 9 false false).2.m_diffic
      = 100 ∧
    (miner.started_four.request_block_template env_aux_fails handler_v2 9 false false).2.m_template
      = { template_v2 with baseTransaction := [42] } := by
  decide

/-- C13: from every state `stop()` returns true and afterwards `is_mining()` is false, the
worker registry is empty and `get_speed()` returns 0; the state after the call is the
state before it with the stop flag set and the registry cleared, so template,
difficulty, template version, starter nonce, pause counter, remembered address and
thread total are as before. -/
theorem stop_effect (s : miner) :
    s.stop.1 = true ∧ s.stop.2.is_mining = false ∧ s.stop.2.m_threads = [] ∧
    s.stop.2.get_speed = 0 ∧
    s.stop.2 = { s with m_stop := true, m_threads := [] } ∧
    s.stop.2.m_template = s.m_template ∧ s.stop.2.m_diffic = s.m_diffic ∧
    s.stop.2.m_template_no = s.m_template_no ∧
    s.stop.2.m_starter_nonce = s.m_starter_nonce ∧
    s.stop.2.m_pausers_count = s.m_pausers_count ∧
    s.stop.2.m_mine_address = s.m_mine_address ∧
    s.stop.2.m_mine_address_str = s.m_mine_address_str ∧
    s.stop.2.m_threads_total = s.m_threads_total := by
  simp [miner.stop, miner.send_stop_signal, miner.is_mining, miner.get_speed]

/-- C14: applied to an already stopped coordinator (stop flag set, registry empty) `stop()`
returns true and leaves the whole state unchanged; hence for every state the state
after `stop(); stop()` is the state after one `stop()`. -/
theorem stop_idempotent :
    (∀ s : miner, s.m_stop = true → s.m_threads = [] → s.stop = (true, s)) ∧
    (∀ s : miner, s.stop.2.stop = (true, s.stop.2)) := by
  constructor
  · intro s h1 h2
    obtain ⟨a, b, c, d, e, f, g, h, i, j, k, l, m, n, o⟩ := s
    simp only at h1 h2
    subst h1 h2
    rfl
  · intro s
    rfl

/-- Witness for C14: `stop()` on the freshly constructed coordinator, which is stopped. -/
theorem stop_idempotent_witness :
    miner.init.m_stop = true ∧ miner.init.m_threads = [] ∧
    miner.init.stop = (true, miner.init) ∧
    miner.started_four.stop.2.stop = (true, miner.started_four.stop.2) :=
  ⟨rfl, rfl, stop_idempotent.1 miner.init rfl rfl, stop_idempotent.2 miner.started_four⟩

/-! ### Hash rate -/

/-- With a clock that has not gone back, the divisor of line 180 is the elapsed time plus one. -/
theorem merge_hr_divisor_eq (now t0 : Nat) (h0 : t0 ≠ 0) (hmono : t0 ≤ now)
    (hnow : now < UINT64_MOD) : merge_hr_divisor now t0 = now - t0 + 1 := by
  simp only [merge_hr_divisor, UINT64_MOD] at *
  omega

/-- The state after a `merge_hr` call that takes a sample with a non-zero divisor. -/
theorem merge_hr_of_sample (s : miner) (now1 now2 : Nat) (hts : s.takes_sample = true)
    (hne : merge_hr_divisor now1 s.m_last_hr_merge_time ≠ 0) :
    s.merge_hr now1 now2
      = some { s with
          m_current_hash_rate :=
            merge_hr_rate s.m_hashes (merge_hr_divisor now1 s.m_last_hr_merge_time),
          m_last_hash_rates := window_push s.m_last_hash_rates
            (merge_hr_rate s.m_hashes (merge_hr_divisor now1 s.m_last_hr_merge_time)),
          m_last_hr_merge_time := now2 % UINT64_MOD,
          m_hashes := 0 } := by
  simp only [miner.merge_hr, hts, if_true, if_neg hne]

/-- The state after a `merge_hr` call that takes no sample. -/
theorem merge_hr_of_no_sample (s : miner) (now1 now2 : Nat) (hts : s.takes_sample = false) :
    s.merge_hr now1 now2
      = some { s with m_last_hr_merge_time := now2 % UINT64_MOD, m_hashes := 0 } := by
  simp [miner.merge_hr, hts]

/-- C15: when `merge_hr` takes a sample (coordinator mining, previous merge time `t0`
non-zero) at a clock reading `now >= t0`, the divisor `now - t0 + 1` is at least 1, the
call returns, and the new current hash rate is `(h * 1000) / (now - t0 + 1)` in 64-bit
unsigned arithmetic, `h` being the hash count: the product is taken modulo `2^64` and
the division rounds down; it is `h * 1000 / (now - t0 + 1)` whenever `h * 1000 < 2^64`. -/
theorem merge_hr_sample_rate (s : miner) (now1 now2 : Nat)
    (hm : s.is_mining = true) (h0 : s.m_last_hr_merge_time ≠ 0)
    (hmono : s.m_last_hr_merge_time ≤ now1) (hnow : now1 < UINT64_MOD) :
    1 ≤ merge_hr_divisor now1 s.m_last_hr_merge_time ∧
    merge_hr_divisor now1 s.m_last_hr_merge_time = now1 - s.m_last_hr_merge_time + 1 ∧
    ∃ s1 : miner, s.merge_hr now1 now2 = some s1 ∧
      s1.m_current_hash_rate
        = (s.m_hashes * 1000 % UINT64_MOD) / (now1 - s.m_last_hr_merge_time + 1) ∧
      (s.m_hashes * 1000 < UINT64_MOD →
        s1.m_current_hash_rate = s.m_hashes * 1000 / (now1 - s.m_last_hr_merge_time + 1)) := by
  have hd := merge_hr_divisor_eq now1 s.m_last_hr_merge_time h0 hmono hnow
  have hts : s.takes_sample = true := by simp [miner.takes_sample, h0, hm]
  have hne : merge_hr_divisor now1 s.m_last_hr_merge_time ≠ 0 := by rw [hd]; omega
  refine ⟨by rw [hd]; omega, hd, ?_⟩
  refine ⟨_, merge_hr_of_sample s now1 now2 hts hne, ?_, ?_⟩
  · simp only [merge_hr_rate, hd]
  · intro hlt
    simp only [merge_hr_rate, hd, Nat.mod_eq_of_lt hlt]

/-- Witness for C15: 7 hashes counted over 1 millisecond give the rate 3500. -/
theorem merge_hr_sample_rate_witness :
    ({ miner.started_four with m_last_hr_merge_time := 1000, m_hashes := 7 } : miner).is_mining
      = true ∧
    ∃ s1 : miner,
      ({ miner.started_four with m_last_hr_merge_time := 1000, m_hashes := 7 } : miner).merge_hr
        1001 1002 = some s1 ∧
      s1.m_current_hash_rate = (7 * 1000 % UINT64_MOD) / (1001 - 1000 + 1) ∧
      s1.m_current_hash_rate = 3500 :=
  have h := merge_hr_sample_rate
    ({ miner.started_four with m_last_hr_merge_time := 1000, m_hashes := 7 } : miner) 1001 1002
    rfl (by decide) (by decide) (by decide)
  ⟨rfl, by
    obtain ⟨s1, h1, h2, _⟩ := h.2.2
    exact ⟨s1, h1, h2, by rw [h2]; decide⟩⟩

/-- Pushing onto the last nineteen entries of a list gives the last nineteen entries of
the list with the new entry appended. -/
theorem window_push_last_entries (l : List Nat) (r : Nat) :
    window_push (last_entries 19 l) r = last_entries 19 (l ++ [r]) := by
  simp only [window_push, last_entries, List.length_append, List.length_drop,
    List.length_singleton]
  by_cases h : l.length < 19
  · have h1 : l.length - 19 = 0 := by omega
    have h2 : l.length + 1 - 19 = 0 := by omega
    rw [h1, h2, if_neg (by omega)]
    simp
  · have h2 : l.length + 1 - 19 = (l.length - 19) + 1 := by omega
    rw [if_pos (by omega), h2,
      ← List.drop_append_of_le_length (show l.length - 19 ≤ l.length by omega), List.tail_drop]

/-- The template request leaves the hash-rate fields alone. -/
theorem request_block_template_rates (env : Env) (h : Handler) (rnd : Nat) (s : miner)
    (w l : Bool) :
    (s.request_block_template env h rnd w l).2.m_last_hash_rates = s.m_last_hash_rates ∧
    (s.request_block_template env h rnd w l).2.m_current_hash_rate = s.m_current_hash_rate ∧
    (s.request_block_template env h rnd w l).2.m_hashes = s.m_hashes ∧
    (s.request_block_template env h rnd w l).2.m_last_hr_merge_time
      = s.m_last_hr_merge_time ∧
    (s.request_block_template env h rnd w l).2.m_stop = s.m_stop := by
  unfold miner.request_block_template
  dsimp only
  cases h.prepareBlockTemplate s.m_mine_address [] with
  | none => simp
  | some p =>
    dsimp only
    cases h.getStake p.bl.majorVersion p.fee p.height p.di p.median_size
        p.already_generated_coins p.txs_size with
    | none => simp
    | some st =>
      dsimp only
      cases h.getStakeTransaction s.m_mine_address_str st.stake st.reward 0
          (st.height + env.unlock_window) "" p.bl.baseTransaction with
      | none => simp
      | some tx =>
        have hf := set_block_template_frame env rnd s { p.bl with baseTransaction := tx } st.di
        simp only at hf
        obtain ⟨h1, _, _, _, _, _, h7, h8, h9, h10, _⟩ := hf
        exact ⟨h10, h7, h8, h9, h1⟩

/-- The refresh callback of `on_idle` leaves the hash-rate fields and the stop flag alone. -/
theorem on_idle_refresh_rates (env : Env) (h : Handler) (rnd : Nat) (fire : Bool) (s : miner) :
    (s.on_idle_refresh env h rnd fire).m_last_hash_rates = s.m_last_hash_rates ∧
    (s.on_idle_refresh env h rnd fire).m_current_hash_rate = s.m_current_hash_rate ∧
    (s.on_idle_refresh env h rnd fire).m_hashes = s.m_hashes ∧
    (s.on_idle_refresh env h rnd fire).m_last_hr_merge_time = s.m_last_hr_merge_time ∧
    (s.on_idle_refresh env h rnd fire).m_stop = s.m_stop := by
  unfold miner.on_idle_refresh
  split_ifs
  · exact request_block_template_rates env h rnd s false false
  · exact ⟨rfl, rfl, rfl, rfl, rfl⟩
  · exact ⟨rfl, rfl, rfl, rfl, rfl⟩

/-- A `start` call leaves the hash-rate window and the current rate alone. -/
theorem start_rates (env : Env) (h : Handler) (r1 r2 : Nat) (s s' : miner)
    (address : String) (n : Nat) (res : Bool)
    (hst : s.start env h r1 r2 address n = some (res, s')) :
    s'.m_last_hash_rates = s.m_last_hash_rates ∧
    s'.m_current_hash_rate = s.m_current_hash_rate := by
  have hreq : (s.start_request env h r1 r2 address n).2.m_last_hash_rates
        = s.m_last_hash_rates ∧
      (s.start_request env h r1 r2 address n).2.m_current_hash_rate
        = s.m_current_hash_rate := by
    unfold miner.start_request
    obtain ⟨a, b, _⟩ := request_block_template_rates env h r2
      (({ s with m_mine_address :=
          (env.parseAccountAddressString address s.m_mine_address).2 } : miner).start_configure
        address n r1) false true
    rw [a, b]
    exact ⟨rfl, rfl⟩
  unfold miner.start at hst
  dsimp only at hst
  split_ifs at hst with h1 h2 h3 h4
  · cases hst; exact ⟨rfl, rfl⟩
  · cases hst; exact ⟨rfl, rfl⟩
  · cases hst; exact hreq
  · rw [Option.map_eq_some'] at hst
    obtain ⟨ths, _, heq⟩ := hst
    cases heq
    exact hreq
  · cases hst; exact ⟨rfl, rfl⟩

/-- One pass of a worker loop leaves the hash-rate window and the current rate alone. -/
theorem iteration_rates (env : Env) (h : Handler) (m : miner) (w : worker) :
    (w.iteration env h m).m.m_last_hash_rates = m.m_last_hash_rates ∧
    (w.iteration env h m).m.m_current_hash_rate = m.m_current_hash_rate := by
  unfold worker.iteration
  dsimp only
  split_ifs <;> exact ⟨rfl, rfl⟩

/-- The window and the current rate after a `merge_hr` call: the sampled rate is pushed and
becomes the current rate, and a call that takes no sample changes neither. -/
theorem merge_hr_rates (s s1 : miner) (now1 now2 : Nat) (hm : s.merge_hr now1 now2 = some s1) :
    (s.takes_sample = true →
      s1.m_last_hash_rates = window_push s.m_last_hash_rates s1.m_current_hash_rate) ∧
    (s.takes_sample = false →
      s1.m_last_hash_rates = s.m_last_hash_rates ∧
      s1.m_current_hash_rate = s.m_current_hash_rate) := by
  cases hts : s.takes_sample
  · rw [merge_hr_of_no_sample s now1 now2 hts] at hm
    cases hm
    simp
  · by_cases hne : merge_hr_divisor now1 s.m_last_hr_merge_time = 0
    · simp [miner.merge_hr, hts, hne] at hm
    · rw [merge_hr_of_sample s now1 now2 hts hne] at hm
      cases hm
      simp

/-- What one step does to the window and to the current rate: a sampled rate is pushed onto
the window and becomes the current rate; a step that samples nothing changes neither. -/
theorem apply_step_rates (env : Env) (s s1 : miner) (st : running_step)
    (hap : s.apply_step env st = some s1) :
    s1.m_last_hash_rates
      = (match s.step_sample env st with
        | some r => window_push s.m_last_hash_rates r
        | none => s.m_last_hash_rates) ∧
    s1.m_current_hash_rate = (s.step_sample env st).getD s.m_current_hash_rate := by
  cases st with
  | pause =>
    simp only [miner.apply_step, Option.some.injEq] at hap
    subst hap; exact ⟨rfl, rfl⟩
  | resume =>
    simp only [miner.apply_step, Option.some.injEq] at hap
    subst hap
    simp only [miner.step_sample, miner.resume]
    split_ifs <;> exact ⟨rfl, rfl⟩
  | on_idle h rnd ft fm now1 now2 =>
    obtain ⟨f1, f2, _, _, _⟩ := on_idle_refresh_rates env h rnd ft s
    simp only [miner.apply_step, miner.on_idle, Option.map_eq_some'] at hap
    obtain ⟨⟨res, s2⟩, hoi, hs2⟩ := hap
    simp only at hs2
    subst hs2
    cases fm with
    | false =>
      simp only [Bool.false_eq_true, if_false, Option.some.injEq, Prod.mk.injEq] at hoi
      obtain ⟨_, hoi⟩ := hoi
      subst hoi
      simp [miner.step_sample, f1, f2]
    | true =>
      simp only [if_true, Option.map_eq_some', Prod.mk.injEq] at hoi
      obtain ⟨s3, hm, _, hs3⟩ := hoi
      subst hs3
      have hr := merge_hr_rates _ _ now1 now2 hm
      cases hts : (s.on_idle_refresh env h rnd ft).takes_sample
      · obtain ⟨g1, g2⟩ := hr.2 hts
        simp [miner.step_sample, hts, g1, g2, f1, f2]
      · have g1 := hr.1 hts
        simp [miner.step_sample, hts, hm, g1, f1]
  | merge_hr now1 now2 =>
    simp only [miner.apply_step] at hap
    have hr := merge_hr_rates _ _ now1 now2 hap
    cases hts : s.takes_sample
    · obtain ⟨g1, g2⟩ := hr.2 hts
      simp [miner.step_sample, hts, g1, g2]
    · have g1 := hr.1 hts
      simp [miner.step_sample, hts, hap, g1]
  | request_block_template h rnd w l =>
    simp only [miner.apply_step, Option.some.injEq] at hap
    subst hap
    obtain ⟨f1, f2, _⟩ := request_block_template_rates env h rnd s w l
    simp [miner.step_sample, f1, f2]
  | on_block_chain_update h rnd =>
    simp only [miner.apply_step, Option.some.injEq] at hap
    subst hap
    obtain ⟨f1, f2, _⟩ := request_block_template_rates env h rnd s true true
    simp only [miner.step_sample, miner.on_block_chain_update]
    split_ifs
    · exact ⟨f1, f2⟩
    · exact ⟨rfl, rfl⟩
  | set_block_template rnd bl di =>
    simp only [miner.apply_step, Option.some.injEq] at hap
    subst hap
    have hf := set_block_template_frame env rnd s bl di
    simp only at hf
    obtain ⟨_, _, _, _, _, _, h7, _, _, h10, _⟩ := hf
    simp [miner.step_sample, h7, h10]
  | worker_iteration h w =>
    simp only [miner.apply_step] at hap
    obtain ⟨f1, f2⟩ := iteration_rates env h s w
    split_ifs at hap
    · cases hap; exact ⟨rfl, rfl⟩
    · cases hap; simp [miner.step_sample, f1, f2]
  | start h r1 r2 address n =>
    simp only [miner.apply_step, Option.map_eq_some'] at hap
    obtain ⟨⟨res, s2⟩, hst, hs2⟩ := hap
    simp only at hs2
    subst hs2
    obtain ⟨f1, f2⟩ := start_rates env h r1 r2 s s2 address n res hst
    simp [miner.step_sample, f1, f2]
  | stop =>
    simp only [miner.apply_step, Option.some.injEq] at hap
    subst hap; exact ⟨rfl, rfl⟩
  | send_stop_signal =>
    simp only [miner.apply_step, Option.some.injEq] at hap
    subst hap; exact ⟨rfl, rfl⟩

/-- Along a run, the window is the last nineteen of the entries it started from followed
by the sampled rates. -/
theorem run_steps_window (env : Env) (steps : List running_step) (s s' : miner)
    (l : List Nat) (hw : s.m_last_hash_rates = last_entries 19 l)
    (hrun : s.run_steps env steps = some s') :
    s'.m_last_hash_rates = last_entries 19 (l ++ s.samples env steps) := by
  induction steps generalizing s l with
  | nil =>
    simp only [miner.run_steps, Option.some.injEq] at hrun
    subst hrun
    simp [miner.samples, hw]
  | cons st rest ih =>
    simp only [miner.run_steps] at hrun
    cases hap : s.apply_step env st with
    | none => rw [hap] at hrun; simp at hrun
    | some s1 =>
      rw [hap] at hrun
      simp only at hrun
      obtain ⟨f1, _⟩ := apply_step_rates env s s1 st hap
      simp only [miner.samples, hap]
      cases hsm : s.step_sample env st with
      | none =>
        rw [hsm] at f1
        simp only at f1
        have g1 := ih s1 l (by rw [f1, hw]) hrun
        simp only [Option.toList, List.nil_append]
        exact g1
      | some r =>
        rw [hsm] at f1
        simp only at f1
        have g1 := ih s1 (l ++ [r]) (by rw [f1, hw, window_push_last_entries]) hrun
        simp only [Option.toList, List.singleton_append]
        rw [g1]; simp

/-- Along a run, the current rate is the last sampled rate, and the rate from before the
run when nothing was sampled. -/
theorem run_steps_current_rate (env : Env) (steps : List running_step) (s s' : miner)
    (hrun : s.run_steps env steps = some s') :
    s'.m_current_hash_rate = ((s.samples env steps).getLast?).getD s.m_current_hash_rate := by
  induction steps generalizing s with
  | nil =>
    simp only [miner.run_steps, Option.some.injEq] at hrun
    subst hrun
    simp [miner.samples]
  | cons st rest ih =>
    simp only [miner.run_steps] at hrun
    cases hap : s.apply_step env st with
    | none => rw [hap] at hrun; simp at hrun
    | some s1 =>
      rw [hap] at hrun
      simp only at hrun
      obtain ⟨_, f2⟩ := apply_step_rates env s s1 st hap
      have g2 := ih s1 hrun
      simp only [miner.samples, hap]
      cases hsm : s.step_sample env st with
      | none =>
        rw [hsm] at f2
        simp only [Option.getD_none] at f2
        simp only [Option.toList, List.nil_append]
        rw [g2, f2]
      | some r =>
        rw [hsm] at f2
        simp only [Option.getD_some] at f2
        simp only [Option.toList, List.singleton_append]
        rw [g2, f2, List.getLast?_cons]
        simp

/-- C16 (as amended): the hash-rate window is a bounded queue of capacity 19. After any run
of the system from the freshly constructed coordinator in which `merge_hr` has taken
`k` samples, the window `m_last_hash_rates` holds exactly the `min(k, 19)` most recent
sample rates, oldest first. -/
theorem hash_rate_window_amended (env : Env) (steps : List running_step) (s' : miner)
    (hrun : miner.init.run_steps env steps = some s') :
    s'.m_last_hash_rates = last_entries 19 (miner.samples env miner.init steps) ∧
    s'.m_last_hash_rates.length = min (miner.samples env miner.init steps).length 19 := by
  have h := run_steps_window env steps miner.init s' [] rfl hrun
  rw [List.nil_append] at h
  refine ⟨h, ?_⟩
  rw [h]
  simp only [last_entries, List.length_drop]
  omega

/-- Witness for C16: the run `twenty_samples`, with its twenty samples. -/
theorem hash_rate_window_amended_witness :
    (miner.init.run_steps env_aux_fails twenty_samples).isSome = true ∧
    (miner.samples env_aux_fails miner.init twenty_samples).length = 20 ∧
    ∀ s' : miner, miner.init.run_steps env_aux_fails twenty_samples = some s' →
      s'.m_last_hash_rates
        = last_entries 19 (miner.samples env_aux_fails miner.init twenty_samples) ∧
      s'.m_last_hash_rates.length
        = min (miner.samples env_aux_fails miner.init twenty_samples).length 19 :=
  ⟨by decide, by decide, fun s' hrun =>
    hash_rate_window_amended env_aux_fails twenty_samples s' hrun⟩

/-- C16 (counterexample): after the twenty samples of `twenty_samples`, whose rates are
1000, 500, 333, ..., 50, the window holds nineteen rates: the first sample, 1000, is
already evicted, so the window is not the `min(20, 20) = 20` most recent samples. -/
theorem hash_rate_window_counterexample :
    miner.samples env_aux_fails miner.init twenty_samples
      = [1000, 500, 333, 250, 200, 166, 142, 125, 111, 100, 90, 83, 76, 71, 66, 62, 58, 55,
          52, 50] ∧
    (miner.init.run_steps env_aux_fails twenty_samples).map (fun s => s.m_last_hash_rates)
      = some [500, 333, 250, 200, 166, 142, 125, 111, 100, 90, 83, 76, 71, 66, 62, 58, 55,
          52, 50] ∧
    (miner.init.run_steps env_aux_fails twenty_samples).map
      (fun s => s.m_last_hash_rates.length) = some 19 ∧
    (miner.init.run_steps env_aux_fails twenty_samples).map
      (fun s => s.m_last_hash_rates.length)
      ≠ some (min (miner.samples env_aux_fails miner.init twenty_samples).length 20) := by
  decide

/-- One pass of a worker loop sets the stop flag exactly when it fails to compute the long
hash; otherwise the flag is as before. -/
theorem iteration_stop (env : Env) (h : Handler) (m : miner) (w : worker) :
    (w.iteration env h m).m.m_stop = (m.m_stop || (w.iteration env h m).hash_failed) := by
  by_cases h1 : m.m_pausers_count = 0
  swap
  · simp [worker.iteration, iteration.hash_failed, h1]
  by_cases h2 : (w.resync m).local_template_ver = 0
  · simp [worker.iteration, iteration.hash_failed, h1, h2]
  cases hs : m.m_stop
  swap
  · simp [worker.iteration, iteration.hash_failed, worker.report, h1, h2, hs]
  cases hh : env.get_block_longhash { (w.resync m).b with nonce := (w.resync m).nonce } with
  | none => simp [worker.iteration, iteration.hash_failed, worker.report, h1, h2, hs, hh]
  | some hv =>
    by_cases hc : env.check_hash hv (w.resync m).local_diff = true <;>
      by_cases hb : h.handle_block_found
          { (w.resync m).b with nonce := (w.resync m).nonce } = true <;>
      simp [worker.iteration, iteration.hash_failed, worker.report, h1, h2, hs, hh, hc, hb]

/-- C17: `get_speed()` returns `m_current_hash_rate` when `is_mining()` is true and 0 when it
is false. The current rate is the rate of the most recent sample: a `merge_hr` call
that takes a sample makes `get_speed()` return the rate it computed, and after any run
of the system that ends mining `get_speed()` is the last rate sampled in the run (the
rate from before the run when the run sampled nothing), not an average over the
window. After `stop()` and after a pass of a worker loop in which the long hash could
not be computed, `get_speed()` returns 0. -/
theorem get_speed_current_rate :
    (∀ s : miner, s.is_mining = true → s.get_speed = s.m_current_hash_rate) ∧
    (∀ s : miner, s.is_mining = false → s.get_speed = 0) ∧
    (∀ (s s1 : miner) (now1 now2 : Nat), s.takes_sample = true →
      s.merge_hr now1 now2 = some s1 →
      s1.is_mining = true ∧
      s1.get_speed = merge_hr_rate s.m_hashes (merge_hr_divisor now1 s.m_last_hr_merge_time)) ∧
    (∀ (env : Env) (s s' : miner) (steps : List running_step),
      s.run_steps env steps = some s' → s'.is_mining = true →
      s'.get_speed = ((s.samples env steps).getLast?).getD s.m_current_hash_rate) ∧
    (∀ s : miner, s.stop.2.get_speed = 0) ∧
    (∀ (env : Env) (h : Handler) (m : miner) (w : worker),
      (w.iteration env h m).hash_failed = true →
      (w.iteration env h m).m.is_mining = false ∧ (w.iteration env h m).m.get_speed = 0) := by
  refine ⟨?_, ?_, ?_, ?_, ?_, ?_⟩
  · intro s hm
    simp [miner.get_speed, hm]
  · intro s hm
    simp [miner.get_speed, hm]
  · intro s s1 now1 now2 hts hm
    have hmin : s.is_mining = true := by
      simp only [miner.takes_sample, Bool.and_eq_true] at hts
      exact hts.2
    by_cases hne : merge_hr_divisor now1 s.m_last_hr_merge_time = 0
    · simp [miner.merge_hr, hts, hne] at hm
    · rw [merge_hr_of_sample s now1 now2 hts hne] at hm
      cases hm
      have hmin1 : s.m_stop = false := by simpa [miner.is_mining] using hmin
      simp [miner.get_speed, miner.is_mining, hmin1]
  · intro env s s' steps hrun hm
    have h := run_steps_current_rate env steps s s' hrun
    simp [miner.get_speed, hm, h]
  · intro s
    simp [miner.get_speed, miner.stop, miner.send_stop_signal, miner.is_mining]
  · intro env h m w hf
    have hs := iteration_stop env h m w
    rw [hf, Bool.or_true] at hs
    simp [miner.get_speed, miner.is_mining, hs]

/-- Witness for C17: the running coordinator `miner.started_four` and the stopped fresh one. -/
theorem get_speed_current_rate_witness :
    miner.started_four.is_mining = true ∧
    miner.started_four.get_speed = miner.started_four.m_current_hash_rate ∧
    miner.init.is_mining = false ∧ miner.init.get_speed = 0 :=
  ⟨rfl, get_speed_current_rate.1 miner.started_four rfl, rfl,
    get_speed_current_rate.2.1 miner.init rfl⟩

/-! ### The running state -/

/-- A `merge_hr` call leaves the stop flag and the template store alone. -/
theorem merge_hr_frame (s s1 : miner) (now1 now2 : Nat) (hm : s.merge_hr now1 now2 = some s1) :
    s1.m_stop = s.m_stop ∧ s1.m_template = s.m_template ∧ s1.m_diffic = s.m_diffic ∧
    s1.m_template_no = s.m_template_no ∧ s1.m_starter_nonce = s.m_starter_nonce := by
  cases hts : s.takes_sample
  · rw [merge_hr_of_no_sample s now1 now2 hts] at hm
    cases hm
    exact ⟨rfl, rfl, rfl, rfl, rfl⟩
  · by_cases hne : merge_hr_divisor now1 s.m_last_hr_merge_time = 0
    · simp [miner.merge_hr, hts, hne] at hm
    · rw [merge_hr_of_sample s now1 now2 hts hne] at hm
      cases hm
      exact ⟨rfl, rfl, rfl, rfl, rfl⟩

/-- With a clock that has not gone back, `merge_hr` returns. -/
theorem merge_hr_returns (s : miner) (now1 now2 : Nat)
    (hmono : s.m_last_hr_merge_time ≤ now1) (hnow : now1 < UINT64_MOD) :
    ∃ s1 : miner, s.merge_hr now1 now2 = some s1 := by
  cases hts : s.takes_sample
  · exact ⟨_, merge_hr_of_no_sample s now1 now2 hts⟩
  · have h0 : s.m_last_hr_merge_time ≠ 0 := by
      simp only [miner.takes_sample, Bool.and_eq_true, decide_eq_true_eq] at hts
      exact hts.1
    have hd := merge_hr_divisor_eq now1 s.m_last_hr_merge_time h0 hmono hnow
    exact ⟨_, merge_hr_of_sample s now1 now2 hts (by rw [hd]; omega)⟩

/-- A step that is neither a stop call nor a pass of a worker loop with a failed long hash
keeps a mining coordinator mining. -/
theorem apply_step_mining (env : Env) (s s1 : miner) (st : running_step)
    (hm : s.is_mining = true) (hns : s.step_stops env st = false)
    (hap : s.apply_step env st = some s1) : s1.is_mining = true := by
  have hstop : s.m_stop = false := by simpa [miner.is_mining] using hm
  have key : s1.m_stop = false → s1.is_mining = true := by
    intro h; simp [miner.is_mining, h]
  apply key
  cases st with
  | pause =>
    simp only [miner.apply_step, Option.some.injEq] at hap
    subst hap; exact hstop
  | resume =>
    simp only [miner.apply_step, Option.some.injEq] at hap
    subst hap
    simp only [miner.resume]
    split_ifs <;> exact hstop
  | on_idle h rnd ft fm now1 now2 =>
    obtain ⟨_, _, _, _, f5⟩ := on_idle_refresh_rates env h rnd ft s
    simp only [miner.apply_step, miner.on_idle, Option.map_eq_some'] at hap
    obtain ⟨⟨res, s2⟩, hoi, hs2⟩ := hap
    simp only at hs2
    subst hs2
    cases fm with
    | false =>
      simp only [Bool.false_eq_true, if_false, Option.some.injEq, Prod.mk.injEq] at hoi
      obtain ⟨_, hoi⟩ := hoi
      subst hoi
      rw [f5, hstop]
    | true =>
      simp only [if_true, Option.map_eq_some', Prod.mk.injEq] at hoi
      obtain ⟨s3, hmh, _, hs3⟩ := hoi
      subst hs3
      rw [(merge_hr_frame _ _ now1 now2 hmh).1, f5, hstop]
  | merge_hr now1 now2 =>
    simp only [miner.apply_step] at hap
    rw [(merge_hr_frame _ _ now1 now2 hap).1, hstop]
  | request_block_template h rnd w l =>
    simp only [miner.apply_step, Option.some.injEq] at hap
    subst hap
    rw [(request_block_template_rates env h rnd s w l).2.2.2.2, hstop]
  | on_block_chain_update h rnd =>
    simp only [miner.apply_step, Option.some.injEq] at hap
    subst hap
    simp only [miner.on_block_chain_update]
    split_ifs
    · rw [(request_block_template_rates env h rnd s true true).2.2.2.2, hstop]
  | set_block_template rnd bl di =>
    simp only [miner.apply_step, Option.some.injEq] at hap
    subst hap
    have hf := set_block_template_frame env rnd s bl di
    simp only at hf
    rw [hf.1, hstop]
  | worker_iteration h w =>
    simp only [miner.apply_step, hstop, Bool.false_eq_true, if_false, Option.some.injEq] at hap
    subst hap
    simp only [miner.step_stops] at hns
    rw [iteration_stop, hstop, hns]
    rfl
  | start h r1 r2 address n =>
    simp only [miner.apply_step, Option.map_eq_some'] at hap
    obtain ⟨⟨res, s2⟩, hst, hs2⟩ := hap
    simp only at hs2
    subst hs2
    have := (start_while_mining env h r1 r2 s address n hm).1
    rw [this] at hst
    cases hst
    exact hstop
  | stop => simp [miner.step_stops] at hns
  | send_stop_signal => simp [miner.step_stops] at hns

/-- Along a run in which no step sets the stop flag, a mining coordinator is mining after
every step. -/
theorem run_steps_mining (env : Env) (pre post : List running_step) (s s1 : miner)
    (hm : s.is_mining = true) (hns : s.no_stop env (pre ++ post) = true)
    (hrun : s.run_steps env pre = some s1) : s1.is_mining = true := by
  induction pre generalizing s with
  | nil =>
    simp only [miner.run_steps, Option.some.injEq] at hrun
    subst hrun; exact hm
  | cons st rest ih =>
    simp only [miner.run_steps] at hrun
    rw [List.cons_append] at hns
    simp only [miner.no_stop, Bool.and_eq_true, Bool.not_eq_true'] at hns
    obtain ⟨hn1, hn2⟩ := hns
    cases hap : s.apply_step env st with
    | none => rw [hap] at hrun; simp at hrun
    | some s2 =>
      rw [hap] at hrun hn2
      simp only at hrun hn2
      exact ih s2 (apply_step_mining env s s2 st hm hn1 hap) hn2 hrun

/-- C18 (counterexample): after `start("D1", 4)` has returned true, one pass of the loop of
worker 0 in which `get_block_longhash` fails leaves `is_mining()` false, although
neither `stop()` nor `send_stop_signal()` was called. -/
theorem running_until_stop_counterexample :
    miner.init.start env_hash_fails handler_ok 1 2 "D1" 4 = some (true, miner.started_four) ∧
    miner.started_four.is_mining = true ∧
    one_worker_pass.all (fun st => !st.is_stop_call) = true ∧
    (miner.started_four.run_steps env_hash_fails one_worker_pass).map (fun s => s.is_mining)
      = some false ∧
    ¬ (∀ (env : Env) (h : Handler) (r1 r2 : Nat) (s0 s s1 : miner) (address : String)
        (n : Nat) (steps : List running_step),
        s0.start env h r1 r2 address n = some (true, s) →
        steps.all (fun st => !st.is_stop_call) = true →
        s.run_steps env steps = some s1 → s1.is_mining = true) := by
  have h1 : miner.init.start env_hash_fails handler_ok 1 2 "D1" 4
      = some (true, miner.started_four) := by decide
  have h2 : (miner.started_four.run_steps env_hash_fails one_worker_pass).map
      (fun s => s.is_mining) = some false := by decide
  refine ⟨h1, rfl, by decide, h2, ?_⟩
  intro hall
  rw [Option.map_eq_some'] at h2
  obtain ⟨s1, hrun, hf⟩ := h2
  have := hall env_hash_fails handler_ok 1 2 miner.init miner.started_four s1 "D1" 4
    one_worker_pass h1 (by decide) hrun
  rw [this] at hf
  cases hf

/-- C18 (as amended): after a `start` call that returned true, `is_mining()` is true after
every subsequent step of the system - pause, resume, on_idle, merge_hr,
request_block_template, on_block_chain_update, set_block_template, a further start
and every pass of a worker loop - until `stop()` or `send_stop_signal()` is called or a
pass of a worker loop fails to compute the long hash, which sets the stop flag. -/
theorem running_until_stop_amended (env : Env) (h : Handler) (r1 r2 : Nat) (s0 s : miner)
    (address : String) (n : Nat) (steps : List running_step)
    (hst : s0.start env h r1 r2 address n = some (true, s))
    (hns : s.no_stop env steps = true) :
    s.is_mining = true ∧
    ∀ (pre post : List running_step) (s1 : miner), steps = pre ++ post →
      s.run_steps env pre = some s1 → s1.is_mining = true := by
  obtain ⟨_, _, _, _, ths, _, hs⟩ := start_success env h r1 r2 s0 s address n hst
  have hm : s.is_mining = true := by subst hs; rfl
  refine ⟨hm, ?_⟩
  intro pre post s1 hsteps hrun
  subst hsteps
  exact run_steps_mining env pre post s s1 hm hns hrun

/-- Witness for C18: the run `busy_run` after `start("D1", 4)` on the fresh coordinator. -/
theorem running_until_stop_amended_witness :
    miner.init.start env_aux_fails handler_ok 1 2 "D1" 4 = some (true, miner.started_four) ∧
    miner.started_four.no_stop env_aux_fails busy_run = true ∧
    (miner.started_four.run_steps env_aux_fails busy_run).isSome = true ∧
    ∀ s1 : miner, miner.started_four.run_steps env_aux_fails busy_run = some s1 →
      s1.is_mining = true :=
  ⟨start_four_on_fresh, by decide, by decide, fun s1 hrun =>
    (running_until_stop_amended env_aux_fails handler_ok 1 2 miner.init miner.started_four
      "D1" 4 busy_run start_four_on_fresh (by decide)).2 busy_run [] s1 (by simp) hrun⟩

/-! ### Template refresh -/

/-- C19: if `request_block_template` returns false, the whole coordinator state, and so the
stop flag, the stored template, the difficulty, the template version and the starter
nonce, is unchanged; and an `on_idle` call on a mining coordinator whose template
request fails returns true (the clock not having gone back when it merges the hash
rate) with `is_mining()` still true and the template store unchanged. -/
theorem failed_refresh_keeps_mining (env : Env) (h : Handler) (rnd : Nat) (s : miner) :
    (∀ w l : Bool, (s.request_block_template env h rnd w l).1 = false →
      (s.request_block_template env h rnd w l).2 = s ∧
      (s.request_block_template env h rnd w l).2.m_stop = s.m_stop ∧
      (s.request_block_template env h rnd w l).2.m_template = s.m_template ∧
      (s.request_block_template env h rnd w l).2.m_diffic = s.m_diffic ∧
      (s.request_block_template env h rnd w l).2.m_template_no = s.m_template_no ∧
      (s.request_block_template env h rnd w l).2.m_starter_nonce = s.m_starter_nonce) ∧
    (∀ (fire_template fire_merge_hr : Bool) (now1 now2 : Nat),
      s.is_mining = true →
      (s.request_block_template env h rnd false false).1 = false →
      (fire_merge_hr = true → s.m_last_hr_merge_time ≤ now1 ∧ now1 < UINT64_MOD) →
      ∃ s1 : miner,
        s.on_idle env h rnd fire_template fire_merge_hr now1 now2 = some (true, s1) ∧
        s1.is_mining = true ∧ s1.m_template = s.m_template ∧ s1.m_diffic = s.m_diffic ∧
        s1.m_template_no = s.m_template_no ∧ s1.m_starter_nonce = s.m_starter_nonce) := by
  constructor
  · intro w l hf
    have hs := (request_block_template_frame env h rnd s w l).1 hf
    rw [hs]
    exact ⟨rfl, rfl, rfl, rfl, rfl, rfl⟩
  · intro ft fm now1 now2 hm hf hclock
    have hs := (request_block_template_frame env h rnd s false false).1 hf
    have href : s.on_idle_refresh env h rnd ft = s := by
      unfold miner.on_idle_refresh
      split_ifs <;> first | exact hs | rfl
    cases fm with
    | false =>
      refine ⟨s, ?_, hm, rfl, rfl, rfl, rfl⟩
      simp [miner.on_idle, href]
    | true =>
      obtain ⟨hmono, hnow⟩ := hclock rfl
      obtain ⟨s1, hmh⟩ := merge_hr_returns s now1 now2 hmono hnow
      obtain ⟨f1, f2, f3, f4, f5⟩ := merge_hr_frame s s1 now1 now2 hmh
      refine ⟨s1, ?_, ?_, f2, f3, f4, f5⟩
      · simp [miner.on_idle, href, hmh]
      · have hstop : s.m_stop = false := by simpa [miner.is_mining] using hm
        simp [miner.is_mining, f1, hstop]

/-- Witness for C19: `on_idle` on the running coordinator with a core that has no template. -/
theorem failed_refresh_keeps_mining_witness :
    miner.started_four.is_mining = true ∧
    (miner.started_four.request_block_template env_aux_fails handler_no_template 3 false
      false).1 = false ∧
    ∃ s1 : miner,
      miner.started_four.on_idle env_aux_fails handler_no_template 3 true true 2000 2000
        = some (true, s1) ∧
      s1.is_mining = true ∧ s1.m_template = miner.started_four.m_template ∧
      s1.m_diffic = miner.started_four.m_diffic ∧
      s1.m_template_no = miner.started_four.m_template_no ∧
      s1.m_starter_nonce = miner.started_four.m_starter_nonce :=
  ⟨rfl, by decide,
    (failed_refresh_keeps_mining env_aux_fails handler_no_template 3 miner.started_four).2
      true true 2000 2000 rfl (by decide) (fun _ => by decide)⟩

/-! ### One pass of the worker loop -/

/-- A pass of the loop of a paused worker only sleeps. -/
theorem iteration_paused (env : Env) (h : Handler) (m : miner) (w : worker)
    (hp : m.m_pausers_count ≠ 0) :
    w.iteration env h m = { m := m, w := w, events := [worker_event.sleep 100] } := by
  simp [worker.iteration, hp]

/-- A pass of the loop of a worker that finds no template set re-synchronises and sleeps. -/
theorem iteration_no_template (env : Env) (h : Handler) (m : miner) (w : worker)
    (hp : m.m_pausers_count = 0) (hv : (w.resync m).local_template_ver = 0) :
    w.iteration env h m
      = { m := m, w := w.resync m, events := [worker_event.sleep 1000] } := by
  simp [worker.iteration, hp, hv]

/-- A pass of the loop of a worker that is neither paused nor stopped and has a template:
the locals after the pass are the re-synchronised ones with the nonce written into the
cached block and then advanced, and the first event is the long hash of that block,
the only long hash of the pass. -/
theorem iteration_hashing (env : Env) (h : Handler) (m : miner) (w : worker)
    (hstop : m.m_stop = false) (hp : m.m_pausers_count = 0)
    (hv : (w.resync m).local_template_ver ≠ 0) :
    (w.iteration env h m).w
      = { (w.resync m) with
          b := { (w.resync m).b with nonce := (w.resync m).nonce },
          nonce := nonce_advance (w.resync m).nonce m.m_threads_total } ∧
    ∃ rest : List worker_event,
      (w.iteration env h m).events
        = worker_event.longhash { (w.resync m).b with nonce := (w.resync m).nonce }
            (env.get_block_longhash
              { (w.resync m).b with nonce := (w.resync m).nonce }).isSome :: rest ∧
      ∀ (b : Block) (ok : Bool), worker_event.longhash b ok ∉ rest := by
  constructor
  · simp [worker.iteration, hp, hv]
  · cases hh : env.get_block_longhash { (w.resync m).b with nonce := (w.resync m).nonce } with
    | none =>
      refine ⟨[], ?_, by simp⟩
      simp [worker.iteration, worker.report, hp, hv, hstop, hh]
    | some hv1 =>
      by_cases hc : env.check_hash hv1 (w.resync m).local_diff = true
      · by_cases hb : h.handle_block_found
            { (w.resync m).b with nonce := (w.resync m).nonce } = true
        · refine ⟨[worker_event.block_found
              { (w.resync m).b with nonce := (w.resync m).nonce } true,
            worker_event.config_saved], ?_, by simp⟩
          simp [worker.iteration, worker.report, hp, hv, hstop, hh, hc, hb]
        · refine ⟨[worker_event.block_found
              { (w.resync m).b with nonce := (w.resync m).nonce } false], ?_, by simp⟩
          simp [worker.iteration, worker.report, hp, hv, hstop, hh, hc, hb]
      · refine ⟨[], ?_, by simp⟩
        simp [worker.iteration, worker.report, hp, hv, hstop, hh, hc]

/-- C20: in a pass of the worker loop executed without interference, with the stop flag
clear and the pause counter 0: when the local version differs from `m_template_no`,
the cached block is copied from `m_template`, the cached difficulty becomes `m_diffic`,
the local version becomes `m_template_no`, and the nonce the pass uses - it is written
into the cached block, which is then hashed - is `(m_starter_nonce + th_local_index)
mod 2^32`; when the local version already equals `m_template_no`, cached block,
difficulty and version are not read again and the pass uses the nonce the worker
already had. -/
theorem iteration_resync (env : Env) (h : Handler) (m : miner) (w : worker)
    (hstop : m.m_stop = false) (hp : m.m_pausers_count = 0) :
    (w.local_template_ver ≠ m.m_template_no →
      (w.resync m).b = m.m_template ∧
      (w.iteration env h m).w.local_diff = m.m_diffic ∧
      (w.iteration env h m).w.local_template_ver = m.m_template_no ∧
      (w.iteration env h m).w.b
        = (if m.m_template_no = 0 then m.m_template
          else { m.m_template with nonce := nonce_start m.m_starter_nonce w.th_local_index }) ∧
      (m.m_template_no ≠ 0 → ∃ (ok : Bool) (rest : List worker_event),
        (w.iteration env h m).events
          = worker_event.longhash
              { m.m_template with nonce := nonce_start m.m_starter_nonce w.th_local_index }
              ok :: rest) ∧
      (∀ (b : Block) (ok : Bool), worker_event.longhash b ok ∈ (w.iteration env h m).events →
        b.nonce = (m.m_starter_nonce + w.th_local_index) % UINT32_MOD)) ∧
    (w.local_template_ver = m.m_template_no →
      w.resync m = w ∧
      (w.iteration env h m).w.local_diff = w.local_diff ∧
      (w.iteration env h m).w.local_template_ver = w.local_template_ver ∧
      (w.iteration env h m).w.b
        = (if m.m_template_no = 0 then w.b else { w.b with nonce := w.nonce }) ∧
      (∀ (b : Block) (ok : Bool), worker_event.longhash b ok ∈ (w.iteration env h m).events →
        b = { w.b with nonce := w.nonce })) := by
  constructor
  · intro hne
    have hr : w.resync m
        = { w with b := m.m_template, local_diff := m.m_diffic,
                   local_template_ver := m.m_template_no,
                   nonce := nonce_start m.m_starter_nonce w.th_local_index } := by
      simp [worker.resync, hne, worker.sync_copy, worker.sync_version, worker.sync_nonce]
    by_cases hv : m.m_template_no = 0
    · have hv1 : (w.resync m).local_template_ver = 0 := by rw [hr]; exact hv
      rw [iteration_no_template env h m w hp hv1, hr]
      simp [hv]
    · have hv1 : (w.resync m).local_template_ver ≠ 0 := by rw [hr]; exact hv
      obtain ⟨hw, rest, hev, hrest⟩ := iteration_hashing env h m w hstop hp hv1
      rw [hw, hev, hr]
      refine ⟨rfl, rfl, rfl, by simp [hv], fun _ => ⟨_, rest, rfl⟩, ?_⟩
      intro b ok hmem
      simp only [List.mem_cons] at hmem
      rcases hmem with heq | hmem
      · cases heq
        simp [nonce_start]
      · exact absurd hmem (hrest b ok)
  · intro heq
    have hr : w.resync m = w := by simp [worker.resync, heq]
    by_cases hv : m.m_template_no = 0
    · have hv1 : (w.resync m).local_template_ver = 0 := by rw [hr, heq]; exact hv
      rw [iteration_no_template env h m w hp hv1, hr]
      simp [hv]
    · have hv1 : (w.resync m).local_template_ver ≠ 0 := by rw [hr, heq]; exact hv
      obtain ⟨hw, rest, hev, hrest⟩ := iteration_hashing env h m w hstop hp hv1
      rw [hw, hev, hr]
      refine ⟨rfl, rfl, rfl, by simp [hv], ?_⟩
      intro b ok hmem
      simp only [List.mem_cons] at hmem
      rcases hmem with heq2 | hmem
      · cases heq2; rfl
      · exact absurd hmem (hrest b ok)

/-- Witness for C20: the first pass of worker 3 on the running coordinator
`miner.started_four`, whose starter nonce is 2: the pass hashes the template with nonce 5. -/
theorem iteration_resync_witness :
    miner.started_four.m_stop = false ∧ miner.started_four.m_pausers_count = 0 ∧
    (worker.init miner.started_four 3).local_template_ver ≠ miner.started_four.m_template_no ∧
    ((worker.init miner.started_four 3).iteration env_aux_fails handler_ok
      miner.started_four).w.local_diff = 100 ∧
    ((worker.init miner.started_four 3).iteration env_aux_fails handler_ok
      miner.started_four).events
      = [worker_event.longhash { miner.started_four.m_template with nonce := 5 } true] ∧
    ((worker.init miner.started_four 3).iteration env_aux_fails handler_ok
      miner.started_four).w.local_template_ver = miner.started_four.m_template_no :=
  ⟨rfl, rfl, by decide,
    ((iteration_resync env_aux_fails handler_ok miner.started_four
      (worker.init miner.started_four 3) rfl rfl).1 (by decide)).2.1,
    by decide,
    ((iteration_resync env_aux_fails handler_ok miner.started_four
      (worker.init miner.started_four 3) rfl rfl).1 (by decide)).2.2.1⟩

/-- C22: a pass of the worker loop that observes a non-zero pause counter (the stop flag
clear) only sleeps: it computes no hash and hands over no block, and it leaves the
nonce, cached template, cached difficulty and local version of the worker and the
whole coordinator state - hash counter, stop flag, template store - unchanged. -/
theorem iteration_paused_frame (env : Env) (h : Handler) (m : miner) (w : worker)
    (_hstop : m.m_stop = false) (hp : m.m_pausers_count ≠ 0) :
    (w.iteration env h m).events = [worker_event.sleep 100] ∧
    (∀ (b : Block) (ok : Bool), worker_event.longhash b ok ∉ (w.iteration env h m).events) ∧
    (∀ (b : Block) (ok : Bool),
      worker_event.block_found b ok ∉ (w.iteration env h m).events) ∧
    (w.iteration env h m).w = w ∧
    (w.iteration env h m).w.nonce = w.nonce ∧ (w.iteration env h m).w.b = w.b ∧
    (w.iteration env h m).w.local_diff = w.local_diff ∧
    (w.iteration env h m).w.local_template_ver = w.local_template_ver ∧
    (w.iteration env h m).m = m ∧
    (w.iteration env h m).m.m_hashes = m.m_hashes ∧
    (w.iteration env h m).m.m_stop = m.m_stop ∧
    (w.iteration env h m).m.m_template = m.m_template ∧
    (w.iteration env h m).m.m_diffic = m.m_diffic ∧
    (w.iteration env h m).m.m_template_no = m.m_template_no ∧
    (w.iteration env h m).m.m_starter_nonce = m.m_starter_nonce := by
  rw [iteration_paused env h m w hp]
  simp

/-- Witness for C22: a pass of worker 0 on the running coordinator after one `pause`. -/
theorem iteration_paused_frame_witness :
    miner.started_four.pause.1.m_stop = false ∧
    miner.started_four.pause.1.m_pausers_count ≠ 0 ∧
    ((worker.init miner.started_four 0).iteration env_lucky handler_ok
      miner.started_four.pause.1).events = [worker_event.sleep 100] ∧
    ((worker.init miner.started_four 0).iteration env_lucky handler_ok
      miner.started_four.pause.1).m = miner.started_four.pause.1 :=
  have h := iteration_paused_frame env_lucky handler_ok miner.started_four.pause.1
    (worker.init miner.started_four 0) rfl (by decide)
  ⟨rfl, by decide, h.1, h.2.2.2.2.2.2.2.2.1⟩

/-- The events and the coordinator state of a pass that hashes: the long hash of the cached
block carrying the nonce; when it is computed and meets the cached difficulty, the
hand-over of that block, followed by a save of the configuration when the block is
accepted. The stop flag is set exactly when the long hash fails, and the hash counter
advances by one. -/
theorem iteration_hashing_result (env : Env) (h : Handler) (m : miner) (w : worker)
    (hstop : m.m_stop = false) (hp : m.m_pausers_count = 0)
    (hv : (w.resync m).local_template_ver ≠ 0) :
    (w.iteration env h m).events
      = (match env.get_block_longhash { (w.resync m).b with nonce := (w.resync m).nonce } with
        | none =>
          [worker_event.longhash { (w.resync m).b with nonce := (w.resync m).nonce } false]
        | some hash =>
          worker_event.longhash { (w.resync m).b with nonce := (w.resync m).nonce } true ::
            (if env.check_hash hash (w.resync m).local_diff = true then
              (if h.handle_block_found
                  { (w.resync m).b with nonce := (w.resync m).nonce } = true then
                [worker_event.block_found
                  { (w.resync m).b with nonce := (w.resync m).nonce } true,
                 worker_event.config_saved]
              else
                [worker_event.block_found
                  { (w.resync m).b with nonce := (w.resync m).nonce } false])
            else [])) ∧
    (w.iteration env h m).m
      = { m with
          m_stop := (env.get_block_longhash
            { (w.resync m).b with nonce := (w.resync m).nonce }).isNone,
          m_hashes := (m.m_hashes + 1) % UINT64_MOD } := by
  cases hh : env.get_block_longhash { (w.resync m).b with nonce := (w.resync m).nonce } with
  | none =>
    constructor
    · simp [worker.iteration, worker.report, hp, hv, hstop, hh]
    · simp [worker.iteration, hp, hv, hstop, hh]
  | some hv1 =>
    constructor
    · by_cases hc : env.check_hash hv1 (w.resync m).local_diff = true <;>
        by_cases hb : h.handle_block_found
            { (w.resync m).b with nonce := (w.resync m).nonce } = true <;>
        simp [worker.iteration, worker.report, hp, hv, hstop, hh, hc, hb]
    · have hm : (w.iteration env h m).m = { m with m_hashes := (m.m_hashes + 1) % UINT64_MOD } := by
        simp [worker.iteration, hp, hv, hstop, hh]
      rw [hm]
      obtain ⟨a, b, c, d, e, f, g, i, j, k, l, n, o, q, r⟩ := m
      simp only at hstop
      subst hstop
      rfl

/-- C23: if `get_block_longhash` fails in a pass of the worker loop, the pass sets the stop
flag, so `is_mining()` is false for the whole coordinator; the only event of the pass is
the failed long hash, so `handle_block_found` is not called and no configuration is
saved; and at its next loop-condition check the loop exits without another pass. -/
theorem hash_failure_stops (env : Env) (h : Handler) (m : miner) (w : worker)
    (hstop : m.m_stop = false) (hp : m.m_pausers_count = 0)
    (hv : (w.resync m).local_template_ver ≠ 0)
    (hfail : env.get_block_longhash
      { (w.resync m).b with nonce := (w.resync m).nonce } = none) :
    (w.iteration env h m).m.m_stop = true ∧
    (w.iteration env h m).m.is_mining = false ∧
    (w.iteration env h m).events
      = [worker_event.longhash { (w.resync m).b with nonce := (w.resync m).nonce } false] ∧
    (∀ (b : Block) (ok : Bool),
      worker_event.block_found b ok ∉ (w.iteration env h m).events) ∧
    worker_event.config_saved ∉ (w.iteration env h m).events ∧
    (w.iteration env h m).m.loop_continues = false ∧
    (∀ h1 : Handler,
      (w.iteration env h m).w.thread_step env h1 (w.iteration env h m).m = none) := by
  obtain ⟨hev, hm⟩ := iteration_hashing_result env h m w hstop hp hv
  rw [hfail] at hev hm
  simp only at hev
  have hs : (w.iteration env h m).m.m_stop = true := by rw [hm]; rfl
  refine ⟨hs, by simp [miner.is_mining, hs], hev, ?_, ?_, by simp [miner.loop_continues, hs], ?_⟩
  · intro b ok; rw [hev]; simp
  · rw [hev]; simp
  · intro h1
    simp [worker.thread_step, miner.loop_continues, hs]

/-- Witness for C23: the first pass of worker 0 on the running coordinator when the long
hash cannot be computed. -/
theorem hash_failure_stops_witness :
    miner.started_four.m_stop = false ∧ miner.started_four.m_pausers_count = 0 ∧
    ((worker.init miner.started_four 0).iteration env_hash_fails handler_ok
      miner.started_four).m.is_mining = false ∧
    ((worker.init miner.started_four 0).iteration env_hash_fails handler_ok
      miner.started_four).events
      = [worker_event.longhash { miner.started_four.m_template with nonce := 2 } false] ∧
    ((worker.init miner.started_four 0).iteration env_hash_fails handler_ok
      miner.started_four).w.thread_step env_hash_fails handler_ok
      ((worker.init miner.started_four 0).iteration env_hash_fails handler_ok
        miner.started_four).m = none :=
  have h := hash_failure_stops env_hash_fails handler_ok miner.started_four
    (worker.init miner.started_four 0) rfl rfl (by decide) rfl
  ⟨rfl, rfl, h.2.1, by decide, h.2.2.2.2.2.2 handler_ok⟩

/-- C24: in a pass of the worker loop that hashes (stop flag clear, not paused, a template
set), with `b` the cached block carrying the current nonce: if the long hash is
computed and `check_hash(h, cached difficulty)` holds, `handle_block_found` is called
exactly once, on `b`, and the configuration is saved exactly when that call returns
true; otherwise `handle_block_found` is not called and nothing is saved. When the call
returns false, the stop flag, the template and the template version are unchanged,
the loop goes on, and the nonce of the worker is advanced to the next one. -/
theorem block_found_handoff (env : Env) (h : Handler) (m : miner) (w : worker)
    (hstop : m.m_stop = false) (hp : m.m_pausers_count = 0)
    (hv : (w.resync m).local_template_ver ≠ 0) :
    (∀ hash : Hash,
      env.get_block_longhash { (w.resync m).b with nonce := (w.resync m).nonce } = some hash →
      env.check_hash hash (w.resync m).local_diff = true →
      (h.handle_block_found { (w.resync m).b with nonce := (w.resync m).nonce } = true →
        (w.iteration env h m).events
          = [worker_event.longhash { (w.resync m).b with nonce := (w.resync m).nonce } true,
             worker_event.block_found
               { (w.resync m).b with nonce := (w.resync m).nonce } true,
             worker_event.config_saved]) ∧
      (h.handle_block_found { (w.resync m).b with nonce := (w.resync m).nonce } = false →
        (w.iteration env h m).events
          = [worker_event.longhash { (w.resync m).b with nonce := (w.resync m).nonce } true,
             worker_event.block_found
               { (w.resync m).b with nonce := (w.resync m).nonce } false] ∧
        (w.iteration env h m).m.m_stop = m.m_stop ∧
        (w.iteration env h m).m.m_template = m.m_template ∧
        (w.iteration env h m).m.m_template_no = m.m_template_no ∧
        (w.iteration env h m).m.loop_continues = true ∧
        (w.iteration env h m).w.nonce
          = nonce_advance (w.resync m).nonce m.m_threads_total)) ∧
    (∀ hash : Hash,
      env.get_block_longhash { (w.resync m).b with nonce := (w.resync m).nonce } = some hash →
      env.check_hash hash (w.resync m).local_diff = false →
      (w.iteration env h m).events
        = [worker_event.longhash
            { (w.resync m).b with nonce := (w.resync m).nonce } true]) ∧
    (env.get_block_longhash { (w.resync m).b with nonce := (w.resync m).nonce } = none →
      (w.iteration env h m).events
        = [worker_event.longhash
            { (w.resync m).b with nonce := (w.resync m).nonce } false]) ∧
    (worker_event.config_saved ∈ (w.iteration env h m).events ↔
      worker_event.block_found { (w.resync m).b with nonce := (w.resync m).nonce } true
        ∈ (w.iteration env h m).events) := by
  obtain ⟨hev, hm⟩ := iteration_hashing_result env h m w hstop hp hv
  obtain ⟨hw, _⟩ := iteration_hashing env h m w hstop hp hv
  refine ⟨?_, ?_, ?_, ?_⟩
  · intro hash hh hc
    rw [hh] at hev hm
    simp only [hc, if_true] at hev
    constructor
    · intro hb
      rw [hev, if_pos hb]
    · intro hb
      rw [hev, if_neg (by rw [hb]; simp)]
      refine ⟨rfl, ?_, ?_, ?_, ?_, ?_⟩
      · rw [hm]; simp [hstop]
      · rw [hm]
      · rw [hm]
      · rw [hm]; simp [miner.loop_continues]
      · rw [hw]
  · intro hash hh hc
    rw [hh] at hev
    simp only [hc, Bool.false_eq_true, if_false] at hev
    exact hev
  · intro hh
    rw [hh] at hev
    exact hev
  · rw [hev]
    cases env.get_block_longhash { (w.resync m).b with nonce := (w.resync m).nonce } with
    | none => simp
    | some hash =>
      by_cases hc : env.check_hash hash (w.resync m).local_diff = true <;>
        by_cases hb : h.handle_block_found
            { (w.resync m).b with nonce := (w.resync m).nonce } = true <;>
        simp [hc, hb]

/-- Witness for C24: the first pass of worker 0 on the running coordinator when every hash
meets the difficulty, once with a core that accepts the block and once with one that
rejects it. -/
theorem block_found_handoff_witness :
    miner.started_four.m_stop = false ∧ miner.started_four.m_pausers_count = 0 ∧
    ((worker.init miner.started_four 0).iteration env_lucky handler_ok
      miner.started_four).events
      = [worker_event.longhash { miner.started_four.m_template with nonce := 2 } true,
         worker_event.block_found { miner.started_four.m_template with nonce := 2 } true,
         worker_event.config_saved] ∧
    ((worker.init miner.started_four 0).iteration env_lucky handler_rejects
      miner.started_four).events
      = [worker_event.longhash { miner.started_four.m_template with nonce := 2 } true,
         worker_event.block_found { miner.started_four.m_template with nonce := 2 } false] :=
  ⟨rfl, rfl,
    ((block_found_handoff env_lucky handler_ok miner.started_four
      (worker.init miner.started_four 0) rfl rfl (by decide)).1 [] rfl rfl).1 rfl,
    (((block_found_handoff env_lucky handler_rejects miner.started_four
      (worker.init miner.started_four 0) rfl rfl (by decide)).1 [] rfl rfl).2 rfl).1⟩

/-! ### Consecutive passes -/

/-- The locals a worker hashes with in a pass that meets version `N` and starter nonce `S`:
either it has not yet recorded `N` and the pass is its attempt 0, or it has and its nonce
is the one of attempt `j`. -/
theorem resync_for_attempt (m : miner) (w : worker) (N S T j : Nat)
    (hver : m.m_template_no = N) (hst : m.m_starter_nonce = S)
    (hinv : (w.local_template_ver ≠ N ∧ j = 0) ∨
      (w.local_template_ver = N ∧ w.nonce = probed_nonce S w.th_local_index T j)) :
    (w.resync m).local_template_ver = N ∧
    (w.resync m).nonce = probed_nonce S w.th_local_index T j ∧
    (w.resync m).th_local_index = w.th_local_index := by
  rcases hinv with ⟨hne, hj⟩ | ⟨heq, hn⟩
  · subst hj
    have hd : w.local_template_ver ≠ m.m_template_no := by rw [hver]; exact hne
    have hr : w.resync m
        = { w with b := m.m_template, local_diff := m.m_diffic,
                   local_template_ver := m.m_template_no,
                   nonce := nonce_start m.m_starter_nonce w.th_local_index } := by
      simp [worker.resync, hd, worker.sync_copy, worker.sync_version, worker.sync_nonce]
    rw [hr]
    exact ⟨hver, by rw [hst]; rfl, rfl⟩
  · have hd : w.local_template_ver = m.m_template_no := by rw [hver]; exact heq
    have hr : w.resync m = w := by simp [worker.resync, hd]
    rw [hr]
    exact ⟨heq, hn, rfl⟩

/-- While the version, the starter nonce and the thread total stay the same and the worker
is neither paused nor stopped, the pass number `k` from a worker at attempt `j` hashes
the nonce of attempt `j + k` and advances the hash counter it meets by one. -/
theorem pass_results_nonce (env : Env) (passes : List (Handler × miner)) (w : worker)
    (N S T j : Nat) (hN : N ≠ 0)
    (hall : ∀ p ∈ passes, p.2.m_stop = false ∧ p.2.m_pausers_count = 0 ∧
      p.2.m_template_no = N ∧ p.2.m_starter_nonce = S ∧ p.2.m_threads_total = T)
    (hinv : (w.local_template_ver ≠ N ∧ j = 0) ∨
      (w.local_template_ver = N ∧ w.nonce = probed_nonce S w.th_local_index T j)) :
    ∀ k : Nat, k < passes.length →
      ∃ (r : iteration) (p : Handler × miner),
        (w.pass_results env passes)[k]? = some r ∧ passes[k]? = some p ∧
        r.hashed_nonce = some (probed_nonce S w.th_local_index T (j + k)) ∧
        (∃ (b : Block) (ok : Bool) (rest : List worker_event),
          r.events = worker_event.longhash b ok :: rest ∧
          ∀ (b1 : Block) (ok1 : Bool), worker_event.longhash b1 ok1 ∉ rest) ∧
        r.m.m_hashes = (p.2.m_hashes + 1) % UINT64_MOD := by
  induction passes generalizing w j with
  | nil => intro k hk; simp at hk
  | cons p rest ih =>
    intro k hk
    obtain ⟨hs, hp, hver, hst, htot⟩ := hall p (by simp)
    obtain ⟨r1, r2, r3⟩ := resync_for_attempt p.2 w N S T j hver hst hinv
    have hv : (w.resync p.2).local_template_ver ≠ 0 := by rw [r1]; exact hN
    obtain ⟨hw, tl, hev, htl⟩ := iteration_hashing env p.1 p.2 w hs hp hv
    obtain ⟨_, hm⟩ := iteration_hashing_result env p.1 p.2 w hs hp hv
    cases k with
    | zero =>
      refine ⟨w.iteration env p.1 p.2, p, by simp [worker.pass_results], by simp, ?_,
        ⟨_, _, tl, hev, htl⟩, ?_⟩
      · simp [iteration.hashed_nonce, hev, r2]
      · rw [hm]
    | succ k =>
      have hnext := ih (w.iteration env p.1 p.2).w (j + 1)
        (fun q hq => hall q (by simp [hq]))
        (Or.inr (by
          rw [hw]
          refine ⟨r1, ?_⟩
          show nonce_advance (w.resync p.2).nonce p.2.m_threads_total
            = probed_nonce S (w.resync p.2).th_local_index T (j + 1)
          rw [r2, r3, htot]
          rfl))
        k (by simpa using hk)
      obtain ⟨r, q, h1, h2, h3, h4, h5⟩ := hnext
      have hidx : (w.iteration env p.1 p.2).w.th_local_index = w.th_local_index := by
        rw [hw]; exact r3
      refine ⟨r, q, by simpa [worker.pass_results] using h1, by simpa using h2, ?_, h4, h5⟩
      rw [h3, hidx, Nat.add_assoc, Nat.add_comm 1 k]

/-- C21: while the template version (with its starter nonce and the thread total) stays
unchanged and the worker is neither paused nor stopped, pass number `k` (`k = 0, 1, ...`)
of the worker with index `i`, counted from the pass in which it re-synchronises, hashes
nonce `(starter + i + k * m_threads_total) mod 2^32`, computes no other hash, and
advances the hash counter it meets by one (in `uint64_t`, so by exactly 1 unless the
counter is at its maximum). -/
theorem kth_attempt_nonce (env : Env) (passes : List (Handler × miner)) (w : worker)
    (N S T : Nat) (hN : N ≠ 0) (hfresh : w.local_template_ver ≠ N)
    (hall : ∀ p ∈ passes, p.2.m_stop = false ∧ p.2.m_pausers_count = 0 ∧
      p.2.m_template_no = N ∧ p.2.m_starter_nonce = S ∧ p.2.m_threads_total = T) :
    ∀ k : Nat, k < passes.length →
      ∃ (r : iteration) (p : Handler × miner),
        (w.pass_results env passes)[k]? = some r ∧ passes[k]? = some p ∧
        r.hashed_nonce = some ((S + w.th_local_index + k * T) % UINT32_MOD) ∧
        (∃ (b : Block) (ok : Bool) (rest : List worker_event),
          r.events = worker_event.longhash b ok :: rest ∧
          b.nonce = (S + w.th_local_index + k * T) % UINT32_MOD ∧
          ∀ (b1 : Block) (ok1 : Bool), worker_event.longhash b1 ok1 ∉ rest) ∧
        r.m.m_hashes = (p.2.m_hashes + 1) % UINT64_MOD ∧
        (p.2.m_hashes + 1 < UINT64_MOD → r.m.m_hashes = p.2.m_hashes + 1) := by
  intro k hk
  obtain ⟨r, p, h1, h2, h3, ⟨b, ok, rest, hev, hrest⟩, h5⟩ :=
    pass_results_nonce env passes w N S T 0 hN hall (Or.inl ⟨hfresh, rfl⟩) k hk
  rw [Nat.zero_add, probed_nonce_eq] at h3
  refine ⟨r, p, h1, h2, h3, ⟨b, ok, rest, hev, ?_, hrest⟩, h5, ?_⟩
  · simpa [iteration.hashed_nonce, hev] using h3
  · intro hlt
    rw [h5, Nat.mod_eq_of_lt hlt]

/-- Witness for C21: four workers on the running coordinator `miner.started_four`, whose
starter nonce is 2: the first nonces of the workers are 2, 3, 4, 5, and worker 0 hashes
the nonces 2, 6, 10, 14 in its first four passes. -/
theorem kth_attempt_nonce_witness :
    (miner.started_four.m_template_no ≠ 0 ∧
      (worker.init miner.started_four 0).local_template_ver
        ≠ miner.started_four.m_template_no) ∧
    ((worker.init miner.started_four 0).pass_results env_aux_fails four_passes).map
      iteration.hashed_nonce = [some 2, some 6, some 10, some 14] ∧
    ([0, 1, 2, 3].map fun i =>
      (((worker.init miner.started_four i).pass_results env_aux_fails four_passes).map
        iteration.hashed_nonce).head?) = [some (some 2), some (some 3), some (some 4),
          some (some 5)] ∧
    ∃ (r : iteration) (p : Handler × miner),
      ((worker.init miner.started_four 0).pass_results env_aux_fails four_passes)[3]? = some r ∧
      four_passes[3]? = some p ∧
      r.hashed_nonce = some ((2 + 0 + 3 * 4) % UINT32_MOD) ∧
      r.m.m_hashes = (p.2.m_hashes + 1) % UINT64_MOD := by
  refine ⟨by decide, by decide, by decide, ?_⟩
  obtain ⟨r, p, h1, h2, h3, _, h5, _⟩ :=
    kth_attempt_nonce env_aux_fails four_passes (worker.init miner.started_four 0) 1 2 4
      (by decide) (by decide) (by
        intro p hp
        simp only [four_passes, List.mem_cons, List.mem_singleton, List.not_mem_nil,
          or_false, or_self] at hp
        subst hp
        exact ⟨rfl, rfl, rfl, rfl, rfl⟩) 3 (by decide)
  exact ⟨r, p, h1, h2, h3, h5⟩

/-! ### Restart after a hash failure -/

/-- A stopped coordinator whose registry is not empty refuses to start and stays as it is. -/
theorem start_blocked (env : Env) (h : Handler) (r1 r2 : Nat) (s : miner) (address : String)
    (n : Nat) (hstop : s.m_stop = true) (hth : s.m_threads ≠ []) :
    s.start env h r1 r2 address n = some (false, s) := by
  simp [miner.start, miner.is_mining, hstop, hth]

/-- One pass of a worker loop leaves the registry alone. -/
theorem iteration_threads (env : Env) (h : Handler) (m : miner) (w : worker) :
    (w.iteration env h m).m.m_threads = m.m_threads := by
  unfold worker.iteration
  dsimp only
  split_ifs <;> rfl

/-- A `merge_hr` call leaves the registry alone. -/
theorem merge_hr_threads (s s1 : miner) (now1 now2 : Nat)
    (hm : s.merge_hr now1 now2 = some s1) : s1.m_threads = s.m_threads := by
  cases hts : s.takes_sample
  · rw [merge_hr_of_no_sample s now1 now2 hts] at hm
    cases hm; rfl
  · by_cases hne : merge_hr_divisor now1 s.m_last_hr_merge_time = 0
    · simp [miner.merge_hr, hts, hne] at hm
    · rw [merge_hr_of_sample s now1 now2 hts hne] at hm
      cases hm; rfl

/-- On a stopped coordinator with a non-empty registry, no step but `stop` clears the stop
flag or changes the registry. -/
theorem apply_step_blocked (env : Env) (s s1 : miner) (st : running_step)
    (hstop : s.m_stop = true) (hth : s.m_threads ≠ []) (hst : st.is_stop = false)
    (hap : s.apply_step env st = some s1) :
    s1.m_stop = true ∧ s1.m_threads = s.m_threads := by
  have hmin : s.is_mining = false := by simp [miner.is_mining, hstop]
  cases st with
  | pause =>
    simp only [miner.apply_step, Option.some.injEq] at hap
    subst hap; exact ⟨hstop, rfl⟩
  | resume =>
    simp only [miner.apply_step, Option.some.injEq] at hap
    subst hap
    simp only [miner.resume]
    split_ifs <;> exact ⟨hstop, rfl⟩
  | on_idle h rnd ft fm now1 now2 =>
    have href : s.on_idle_refresh env h rnd ft = s := by
      simp [miner.on_idle_refresh, hmin]
    simp only [miner.apply_step, miner.on_idle, href, Option.map_eq_some'] at hap
    obtain ⟨⟨res, s2⟩, hoi, hs2⟩ := hap
    simp only at hs2
    subst hs2
    cases fm with
    | false =>
      simp only [Bool.false_eq_true, if_false, Option.some.injEq, Prod.mk.injEq] at hoi
      obtain ⟨_, hoi⟩ := hoi
      subst hoi
      exact ⟨hstop, rfl⟩
    | true =>
      simp only [if_true, Option.map_eq_some', Prod.mk.injEq] at hoi
      obtain ⟨s3, hmh, _, hs3⟩ := hoi
      subst hs3
      exact ⟨by rw [(merge_hr_frame _ _ now1 now2 hmh).1, hstop],
        merge_hr_threads _ _ now1 now2 hmh⟩
  | merge_hr now1 now2 =>
    simp only [miner.apply_step] at hap
    exact ⟨by rw [(merge_hr_frame _ _ now1 now2 hap).1, hstop],
      merge_hr_threads _ _ now1 now2 hap⟩
  | request_block_template h rnd w l =>
    simp only [miner.apply_step, Option.some.injEq] at hap
    subst hap
    obtain ⟨_, f1, _, _, f4, _⟩ := request_block_template_frame env h rnd s w l
    exact ⟨by rw [f1, hstop], f4⟩
  | on_block_chain_update h rnd =>
    simp only [miner.apply_step, Option.some.injEq] at hap
    subst hap
    simp [miner.on_block_chain_update, hmin, hstop]
  | set_block_template rnd bl di =>
    simp only [miner.apply_step, Option.some.injEq] at hap
    subst hap
    have hf := set_block_template_frame env rnd s bl di
    simp only at hf
    exact ⟨by rw [hf.1, hstop], hf.2.2.2.1⟩
  | worker_iteration h w =>
    simp only [miner.apply_step, hstop, if_true, Option.some.injEq] at hap
    subst hap; exact ⟨hstop, rfl⟩
  | start h r1 r2 address n =>
    simp only [miner.apply_step, start_blocked env h r1 r2 s address n hstop hth,
      Option.map_some', Option.some.injEq] at hap
    subst hap; exact ⟨hstop, rfl⟩
  | stop => simp [running_step.is_stop] at hst
  | send_stop_signal =>
    simp only [miner.apply_step, Option.some.injEq] at hap
    subst hap; exact ⟨rfl, rfl⟩

/-- Along a run without a `stop` call, a stopped coordinator with a non-empty registry stays
stopped with the same registry. -/
theorem run_steps_blocked (env : Env) (steps : List running_step) (s s1 : miner)
    (hstop : s.m_stop = true) (hth : s.m_threads ≠ [])
    (hns : steps.all (fun st => !st.is_stop) = true)
    (hrun : s.run_steps env steps = some s1) :
    s1.m_stop = true ∧ s1.m_threads = s.m_threads := by
  induction steps generalizing s with
  | nil =>
    simp only [miner.run_steps, Option.some.injEq] at hrun
    subst hrun; exact ⟨hstop, rfl⟩
  | cons st rest ih =>
    simp only [miner.run_steps] at hrun
    simp only [List.all_cons, Bool.and_eq_true, Bool.not_eq_true'] at hns
    cases hap : s.apply_step env st with
    | none => rw [hap] at hrun; simp at hrun
    | some s2 =>
      rw [hap] at hrun
      simp only at hrun
      obtain ⟨g1, g2⟩ := apply_step_blocked env s s2 st hstop hth hns.1 hap
      obtain ⟨k1, k2⟩ := ih s2 g1 (by rw [g2]; exact hth) hns.2 hrun
      exact ⟨k1, by rw [k2, g2]⟩

/-- C25: after a pass of a worker loop in which the long hash could not be computed, on a
coordinator whose registry is not empty, `is_mining()` is false; and after any further
steps other than `stop()` it is still false, the registry is as it was, and `start`
returns false for every address, thread count and behaviour of the collaborators,
leaving the state unchanged (nothing is spawned). Once `stop()` has been called, a
`start` with an address that parses, a template request that succeeds and fewer than
`2^32` threads returns true, with `is_mining()` true and the workers registered. -/
theorem hash_failure_blocks_restart (env : Env) (h : Handler) (m : miner) (w : worker)
    (hth : m.m_threads ≠ []) (hf : (w.iteration env h m).hash_failed = true) :
    (w.iteration env h m).m.is_mining = false ∧
    (w.iteration env h m).m.m_threads = m.m_threads ∧
    (∀ (steps : List running_step) (s1 : miner),
      steps.all (fun st => !st.is_stop) = true →
      (w.iteration env h m).m.run_steps env steps = some s1 →
      s1.is_mining = false ∧ s1.m_threads = m.m_threads ∧
      (∀ (h1 : Handler) (r1 r2 : Nat) (address : String) (n : Nat),
        s1.start env h1 r1 r2 address n = some (false, s1)) ∧
      s1.stop.2.m_threads = [] ∧
      (∀ (h1 : Handler) (r1 r2 : Nat) (address : String) (n : Nat),
        (env.parseAccountAddressString address s1.stop.2.m_mine_address).1 = true →
        (s1.stop.2.start_request env h1 r1 r2 address n).1 = true →
        n < UINT32_MOD →
        ∃ s2 : miner, s1.stop.2.start env h1 r1 r2 address n = some (true, s2) ∧
          s2.is_mining = true ∧ s2.m_threads = List.range n)) := by
  have hs : (w.iteration env h m).m.m_stop = true := by
    rw [iteration_stop, hf, Bool.or_true]
  have ht := iteration_threads env h m w
  refine ⟨by simp [miner.is_mining, hs], ht, ?_⟩
  intro steps s1 hns hrun
  obtain ⟨g1, g2⟩ := run_steps_blocked env steps _ s1 hs (by rw [ht]; exact hth) hns hrun
  have hth1 : s1.m_threads ≠ [] := by rw [g2, ht]; exact hth
  refine ⟨by simp [miner.is_mining, g1], by rw [g2, ht], ?_, rfl, ?_⟩
  · intro h1 r1 r2 address n
    exact start_blocked env h1 r1 r2 s1 address n g1 hth1
  · intro h1 r1 r2 address n hp hr hn
    exact ⟨_, start_of_success env h1 r1 r2 s1.stop.2 address n rfl rfl hp hr hn, rfl, rfl⟩

/-- Witness for C25: the running coordinator `miner.started_four` after a failed long hash:
`start` is refused along the run `restart_attempts`, and succeeds after `stop()`. -/
theorem hash_failure_blocks_restart_witness :
    miner.started_four.m_threads ≠ [] ∧
    ((worker.init miner.started_four 0).iteration env_hash_fails handler_ok
      miner.started_four).hash_failed = true ∧
    miner.after_hash_failure.is_mining = false ∧
    (miner.after_hash_failure.run_steps env_hash_fails restart_attempts).isSome = true ∧
    (∀ s1 : miner, miner.after_hash_failure.run_steps env_hash_fails restart_attempts = some s1 →
      s1.start env_hash_fails handler_ok 1 2 "D1" 4 = some (false, s1)) ∧
    (miner.after_hash_failure.stop.2.start env_hash_fails handler_ok 1 2 "D1" 4).map
      (fun r => (r.1, r.2.is_mining, r.2.m_threads)) = some (true, true, [0, 1, 2, 3]) :=
  have h := hash_failure_blocks_restart env_hash_fails handler_ok miner.started_four
    (worker.init miner.started_four 0) (by decide) (by decide)
  ⟨by decide, by decide, h.1, by decide,
    fun s1 hrun => (h.2.2 restart_attempts s1 (by decide) hrun).2.2.1 handler_ok 1 2 "D1" 4,
    by decide⟩

/-! ### RPC node -/

/-- C26: with the two status constants different from each other and the busy status not
empty, `interpret_rpc_response(ok, status)` returns the empty string exactly when `ok` is
true and `status` is `CORE_RPC_STATUS_OK` or the empty string; it returns the message
`daemon is busy. Please try later` when `ok` is true and `status` is
`CORE_RPC_STATUS_BUSY`, `status` itself for every other status when `ok` is true, and
`possible lost connection to daemon` whenever `ok` is false. The RPC node treats the
empty string as success: `handleBlockFound` returns true exactly when the request does
not throw and the interpretation of its status is empty, and `prepareBlockTemplate`
exactly when, in addition, the template blob parses. -/
theorem interpret_rpc_response_cases (STATUS_OK STATUS_BUSY : String)
    (hne : STATUS_BUSY ≠ STATUS_OK) (hbusy : STATUS_BUSY ≠ "") :
    (∀ (ok : Bool) (status : String),
      interpret_rpc_response STATUS_OK STATUS_BUSY ok status = "" ↔
        (ok = true ∧ (status = STATUS_OK ∨ status = ""))) ∧
    (interpret_rpc_response STATUS_OK STATUS_BUSY true STATUS_BUSY
      = "daemon is busy. Please try later") ∧
    (∀ status : String, status ≠ STATUS_BUSY → status ≠ STATUS_OK →
      interpret_rpc_response STATUS_OK STATUS_BUSY true status = status) ∧
    (∀ status : String,
      interpret_rpc_response STATUS_OK STATUS_BUSY false status
        = "possible lost connection to daemon") ∧
    (∀ status : Option String,
      RpcNode.handleBlockFound STATUS_OK STATUS_BUSY status = true ↔
        ∃ st : String, status = some st ∧
          interpret_rpc_response STATUS_OK STATUS_BUSY true st = "") ∧
    (∀ rsp : Option prepare_response,
      RpcNode.prepareBlockTemplate STATUS_OK STATUS_BUSY rsp = true ↔
        ∃ r : prepare_response, rsp = some r ∧
          interpret_rpc_response STATUS_OK STATUS_BUSY true r.status = "" ∧
          r.blob_parses = true) := by
  have hb1 : ("daemon is busy. Please try later" : String) ≠ "" := by decide
  have hb2 : ("possible lost connection to daemon" : String) ≠ "" := by decide
  refine ⟨?_, ?_, ?_, ?_, ?_, ?_⟩
  · intro ok status
    cases ok with
    | false => simp [interpret_rpc_response, hb2]
    | true =>
      by_cases h1 : status = STATUS_BUSY
      · subst h1
        simp [interpret_rpc_response, hb1, hne, hbusy]
      · by_cases h2 : status = STATUS_OK
        · subst h2
          simp [interpret_rpc_response, h1]
        · simp [interpret_rpc_response, h1, h2]
  · simp [interpret_rpc_response]
  · intro status h1 h2
    simp [interpret_rpc_response, h1, h2]
  · intro status
    simp [interpret_rpc_response]
  · intro status
    cases status with
    | none => simp [RpcNode.handleBlockFound]
    | some st => simp [RpcNode.handleBlockFound]
  · intro rsp
    cases rsp with
    | none => simp [RpcNode.prepareBlockTemplate]
    | some r =>
      by_cases h1 : interpret_rpc_response STATUS_OK STATUS_BUSY true r.status = "" <;>
        cases hb : r.blob_parses <;> simp [RpcNode.prepareBlockTemplate, h1, hb]

/-- Witness for C26: the status constants `OK` and `BUSY`. -/
theorem interpret_rpc_response_cases_witness :
    (("BUSY" : String) ≠ "OK" ∧ ("BUSY" : String) ≠ "") ∧
    interpret_rpc_response "OK" "BUSY" true "OK" = "" ∧
    interpret_rpc_response "OK" "BUSY" true "" = "" ∧
    interpret_rpc_response "OK" "BUSY" true "BUSY" = "daemon is busy. Please try later" ∧
    interpret_rpc_response "OK" "BUSY" true "Failed" = "Failed" ∧
    interpret_rpc_response "OK" "BUSY" false "OK" = "possible lost connection to daemon" :=
  have h := interpret_rpc_response_cases "OK" "BUSY" (by decide) (by decide)
  ⟨by decide, (h.1 true "OK").2 ⟨rfl, Or.inl rfl⟩, (h.1 true "").2 ⟨rfl, Or.inr rfl⟩, h.2.1,
    h.2.2.1 "Failed" (by decide) (by decide), h.2.2.2.1 "OK"⟩

end WalletGui
